import Mathlib

/-!
Verification development for the propbackend ground-control backend.

The Python source is shallowly embedded: JSON-like dictionaries become
association lists over a scalar value type, floats become rationals, and a
Python statement that can raise an uncaught exception (KeyError,
ZeroDivisionError, IndexError outside a try block) is modelled by an
Option-valued function returning none at that point.  Dictionaries produced
by the Python runtime never carry duplicate keys; theorems that need this
carry explicit Nodup hypotheses.
-/

namespace PropBackend

/-- Scalar JSON values as used by the backend (booleans, numbers, strings).
Python floats and ints are both modelled as rationals. -/
inductive Val where
  | bool : Bool → Val
  | num : Rat → Val
  | str : String → Val
deriving DecidableEq, Repr

/-- Python truthiness of a scalar value, as used by
`if self.state[hw_type][item_name]["armed"]:` in board.py and by the
`ramp_to_next` test in hotfire_controller.py. -/
def truthy : Val → Bool
  | .bool b => b
  | .num q => q != 0
  | .str s => s != ""

/-- Python equality with the literal False, as used by
`new_desired_state[hw_type][item_name]["armed"] == False` in board.py
(0 and 0.0 compare equal to False in Python). -/
def eqFalseV : Val → Bool
  | .bool b => !b
  | .num q => q == 0
  | .str _ => false

/-- A numeric read of a scalar, as used by Python arithmetic
(booleans are ints in Python; strings raise TypeError). -/
def asNum : Val → Option Rat
  | .bool b => some (if b then 1 else 0)
  | .num q => some q
  | .str _ => none

/-- Field map of a single hardware item, e.g. a servo's angle and armed flag. -/
abbrev Fields := List (String × Val)

/-- Items of one hardware type, e.g. all servos of a board. -/
abbrev Items := List (String × Fields)

/-- A board-level state dictionary: hardware type to items. -/
abbrev HWMap := List (String × Items)

/-- A desired-state snapshot covering several boards, as stored in one
hotfire-sequence keyframe: board name to board-level map. -/
abbrev DState := List (String × HWMap)

instance : DecidableEq Fields := inferInstance
instance : DecidableEq Items := inferInstance
instance : DecidableEq HWMap := inferInstance
instance : DecidableEq DState := inferInstance

/-- Dictionary read, first occurrence wins (Python dict lookup). -/
def alook {α : Type} (k : String) : List (String × α) → Option α
  | [] => none
  | p :: t => if p.1 = k then some p.2 else alook k t

/-- Python key-membership test. -/
def hasKey {α : Type} (k : String) (l : List (String × α)) : Bool :=
  (alook k l).isSome

/-- Dictionary write: replace the first binding of the key in place, or
append the binding if the key is absent (Python dict assignment keeps the
insertion position of an existing key). -/
def aset {α : Type} (k : String) (v : α) : List (String × α) → List (String × α)
  | [] => [(k, v)]
  | p :: t => if p.1 = k then (p.1, v) :: t else p :: aset k v t

/-- Dictionary key removal, first occurrence (Python dict.pop on a dict
without duplicate keys). -/
def adel {α : Type} (k : String) : List (String × α) → List (String × α)
  | [] => []
  | p :: t => if p.1 = k then t else p :: adel k t

/-! ## Board (propbackend/hardware/board.py) -/

/-- A board, restricted to the data consulted by the merge rules:
the hardware-type sections of its configuration (board.py reads
`self.board_config["servos"][item_name]` for the disarm-angle check),
the actuator flag, the mirrored actual state and the desired state. -/
structure Board where
  boardConfig : HWMap
  isActuator : Bool
  state : HWMap
  desired : HWMap
deriving DecidableEq, Repr

/-- The field-by-field copy of an incoming item into the desired item,
`for key, value in item_data.items(): self.desired_state[...][key] = value`. -/
def udsCopy (idata : Fields) (dit : Fields) : Fields :=
  idata.foldl (fun acc kv => aset kv.1 kv.2 acc) dit

/-- First half of the per-item merge in Board.update_desired_state:
the block guarded by `if "armed" in self.state[hw_type][item_name].keys():`.
If the actual state reports the item armed (truthy), incoming fields are
copied; otherwise a present desired powered field is forced to False.
A none result models an uncaught KeyError. -/
def udsArmedPhase (stIt : Fields) (h I : String) (idata : Fields) (d : HWMap) :
    Option HWMap :=
  match alook "armed" stIt with
  | none => some d
  | some av =>
    if truthy av then
      match alook h d with
      | none => none
      | some dHw =>
        match alook I dHw with
        | none => some d
        | some dit => some (aset h (aset I (udsCopy idata dit) dHw) d)
    else
      match alook h d with
      | none => none
      | some dHw =>
        match alook I dHw with
        | none => none
        | some dit =>
          if hasKey "powered" dit then
            some (aset h (aset I (aset "powered" (Val.bool false) dit) dHw) d)
          else some d

/-- Second half of the per-item merge in Board.update_desired_state:
the block guarded by `if "armed" in new_desired_state[hw_type][item_name].keys():`.
The incoming armed flag is mirrored into the desired item, and a servo whose
incoming armed compares equal to False and whose configuration carries a
disarm_angle key gets its desired angle set to the literal 0. -/
def udsMirrorPhase (cfg : HWMap) (h I : String) (idata : Fields) (d : HWMap) :
    Option HWMap :=
  match alook "armed" idata with
  | none => some d
  | some nav =>
    match alook h d with
    | none => none
    | some dHw =>
      match alook I dHw with
      | none => none
      | some dit =>
        if h = "servos" then
          if eqFalseV nav then
            match alook "servos" cfg with
            | none => none
            | some cfgS =>
              match alook I cfgS with
              | none => none
              | some cfgIt =>
                if hasKey "disarm_angle" cfgIt then
                  match alook "servos" (aset h (aset I (aset "armed" nav dit) dHw) d) with
                  | none => none
                  | some dS =>
                    match alook I dS with
                    | none => none
                    | some sit =>
                      some (aset "servos" (aset I (aset "angle" (Val.num 0) sit) dS)
                        (aset h (aset I (aset "armed" nav dit) dHw) d))
                else some (aset h (aset I (aset "armed" nav dit) dHw) d)
          else some (aset h (aset I (aset "armed" nav dit) dHw) d)
        else some (aset h (aset I (aset "armed" nav dit) dHw) d)

/-- Per-item body of Board.update_desired_state, executed for each
item of the incoming section that is known to the actual state. -/
def udsItem (cfg : HWMap) (stHw : Items) (h I : String) (idata : Fields)
    (d : HWMap) : Option HWMap :=
  match alook I stHw with
  | none => none
  | some stIt =>
    match udsArmedPhase stIt h I idata d with
    | none => none
    | some d1 => udsMirrorPhase cfg h I idata d1

/-- One iteration of the item loop of Board.update_desired_state:
`if item_name in self.state[hw_type]:` then the per-item body. -/
def udsStep (cfg : HWMap) (stHw : Items) (h : String) (acc : HWMap)
    (p : String × Fields) : Option HWMap :=
  if hasKey p.1 stHw then udsItem cfg stHw h p.1 p.2 acc else some acc

/-- Per-hardware-type body of Board.update_desired_state: iterate the items
of the incoming section, skipping items unknown to the actual state. -/
def udsHw (cfg : HWMap) (st : HWMap) (h : String) (newHw : Items) (d : HWMap) :
    Option HWMap :=
  match alook h st with
  | none => none
  | some stHw => newHw.foldlM (udsStep cfg stHw h) d

/-- One iteration of the hardware-type loop of Board.update_desired_state:
`if hw_type in new_desired_state and hw_type in self.desired_state:`. -/
def udsTop (cfg st new : HWMap) (acc : HWMap) (h : String) : Option HWMap :=
  match alook h new with
  | none => some acc
  | some newHw =>
    if hasKey h acc then udsHw cfg st h newHw acc else some acc

/-- Board.update_desired_state: iterate the configured hardware types and
merge the incoming request into the desired state under the arming rules.
hwTypes is config_reader.get_hardware_types(). -/
def update_desired_state (hwTypes : List String) (b : Board) (new : HWMap) :
    Option Board :=
  match hwTypes.foldlM (udsTop b.boardConfig b.state new) b.desired with
  | none => none
  | some d => some { b with desired := d }

/-- Set armed to False on every item of one hardware section
(one of the three loops of Board.disarm_all). -/
def disarmItems (its : Items) : Items :=
  its.map fun p => (p.1, aset "armed" (Val.bool false) p.2)

/-- One guarded sweep of Board.disarm_all:
`if hw in self.desired_state: for item in ...: ...["armed"] = False`. -/
def disarmHw (h : String) (d : HWMap) : HWMap :=
  match alook h d with
  | none => d
  | some its => aset h (disarmItems its) d

/-- Board.disarm_all: on an actuator board, set armed to False on every
servo, solenoid and pyro of the desired state; a pure local update. -/
def disarm_all (b : Board) : Board :=
  if b.isActuator then
    { b with desired := disarmHw "pyros" (disarmHw "solenoids" (disarmHw "servos" b.desired)) }
  else b

/-! ## HotfireController (propbackend/controllers/hotfire_controller.py)

The controller state is taken after set_hotfire_sequence has run: the parsed
timeline plus the sorted time list, the parallel list of the original string
keys, and the precomputed end time.  Keyframe times, parsed by float() from
the string keys, are modelled as rationals. -/

/-- A loaded hotfire timeline, the attribute set left by
HotfireController.set_hotfire_sequence. -/
structure HotfireController where
  time_before_ignition : Rat
  hotfire_safing_time : Rat
  start_end_desiredstate : DState
  sequence : List (String × DState)
  sorted_times : List Rat
  sorted_timestr : List String
  hotfire_end_time : Rat
deriving DecidableEq, Repr

/-- HotfireController.get_T: sequence-relative time. -/
def get_T (c : HotfireController) (t : Rat) : Rat :=
  t - c.time_before_ignition

/-- HotfireController.is_hotfire_complete. -/
def is_hotfire_complete (c : HotfireController) (t : Rat) : Bool :=
  get_T c t > c.hotfire_end_time

/-- The keyframe-search loop of get_hotfire_desiredstate:
`while T > self.sorted_times[time_index+1]: time_index += 1`.
A none result models the uncaught IndexError raised when the loop walks past
the end of the list. -/
def timeIndexAux (ts : List Rat) (T : Rat) (i : Nat) : Option Nat :=
  match h : ts.get? (i + 1) with
  | none => none
  | some t1 => if T > t1 then timeIndexAux ts T (i + 1) else some i
termination_by ts.length - i
decreasing_by
  have hlt : i + 1 < ts.length := (List.get?_eq_some.mp h).1
  omega

/-- The triples (board name, servo name, servo fields) visited by the ramping
loop of get_hotfire_desiredstate, in iteration order. -/
def servoTriples (dst : DState) : List (String × String × Fields) :=
  dst.flatMap fun bp =>
    (bp.2.filter fun hp => hp.1 = "servos").flatMap fun hp =>
      hp.2.map fun sp => (bp.1, sp.1, sp.2)

/-- Read base[bn]["servos"][sn]["angle"]. -/
def pathAngle (dst : DState) (bn sn : String) : Option Val :=
  (((alook bn dst).bind (alook "servos")).bind (alook sn)).bind (alook "angle")

/-- The two mutations the ramping loop performs on the outgoing snapshot:
write the interpolated angle, then pop the ramp_to_next key (a pop on a
missing key would raise KeyError, modelled as none). -/
def rampWrite (acc : DState) (bn sn : String) (w : Rat) : Option DState :=
  match alook bn acc with
  | none => none
  | some bHw =>
    match alook "servos" bHw with
    | none => none
    | some sIts =>
      match alook sn sIts with
      | none => none
      | some sFlds =>
        if hasKey "ramp_to_next" (aset "angle" (Val.num w) sFlds) then
          some (aset bn
            (aset "servos" (aset sn (adel "ramp_to_next" (aset "angle" (Val.num w) sFlds)) sIts) bHw)
            acc)
        else none

/-- One iteration of the ramping loop of get_hotfire_desiredstate for a
single servo entry of the base keyframe.  The accumulated pair carries the
outgoing snapshot and whether a critical error has been logged; the only
exception the source catches here is the IndexError of indexing
sorted_timestr or sorted_times past the last keyframe. -/
def rampStep (c : HotfireController) (ti : Nat) (T : Rat) (base : DState)
    (acc : DState × Bool) (tr : String × String × Fields) :
    Option (DState × Bool) :=
  match alook "ramp_to_next" tr.2.2 with
  | none => some acc
  | some rv =>
    if truthy rv then
      match pathAngle base tr.1 tr.2.1 with
      | none => none
      | some av =>
        match c.sorted_timestr.get? (ti + 1) with
        | none => some (acc.1, true)
        | some ts =>
          match alook ts c.sequence with
          | none => none
          | some nextDs =>
            match pathAngle nextDs tr.1 tr.2.1 with
            | none => none
            | some bv =>
              match c.sorted_times.get? ti, c.sorted_times.get? (ti + 1) with
              | some t0, some t1 =>
                match asNum av, asNum bv with
                | some a, some bAng =>
                  if t1 - t0 = 0 then none
                  else
                    let w := (a * (t1 - T) + bAng * (T - t0)) / (t1 - t0)
                    (rampWrite acc.1 tr.1 tr.2.1 w).map fun d => (d, acc.2)
                | _, _ => none
              | _, _ => some (acc.1, true)
    else some acc

/-- HotfireController.get_hotfire_desiredstate.  The returned pair carries
the snapshot and whether the critical last-keyframe-ramp error was logged;
none models an uncaught exception (empty timeline, the search loop running
off the end, a missing dictionary key, or division by zero). -/
def get_hotfire_desiredstate (c : HotfireController) (t : Rat) :
    Option (DState × Bool) :=
  let T := get_T c t
  match c.sorted_times.head?, c.sorted_times.getLast? with
  | some tFirst, some tLast =>
    if T < tFirst ∨ T > tLast then some (c.start_end_desiredstate, false)
    else
      match timeIndexAux c.sorted_times T 0 with
      | none => none
      | some ti =>
        match c.sorted_timestr.get? ti with
        | none => none
        | some ts =>
          match alook ts c.sequence with
          | none => none
          | some base => (servoTriples base).foldlM (rampStep c ti T base) (base, false)
  | _, _ => none

/-- HotfireController.get_abort_desiredstate (value level). -/
def get_abort_desiredstate (c : HotfireController) : DState :=
  c.start_end_desiredstate

/-! ## States and the StateMachine (propbackend/state_machine/) -/

/-- The closed set of machine states. -/
inductive MState where
  | startup | idle | hotfire | engineAbort | fts | launch | hover
deriving DecidableEq, Repr

/-- The Python class name of a state, as used in transition messages. -/
def stateName : MState → String
  | .startup => "StartupState"
  | .idle => "IdleState"
  | .hotfire => "HotfireState"
  | .engineAbort => "EngineAbortState"
  | .fts => "FTSState"
  | .launch => "LaunchState"
  | .hover => "HoverState"

/-- IdleState.can_transition_to. -/
def idleCan (target : MState) : Bool × String :=
  if target = .hotfire ∨ target = .launch ∨ target = .engineAbort ∨ target = .fts then
    (true, "Valid transition")
  else (false, "Invalid transition")

/-- EngineAbortState.can_transition_to: FTS always; Idle only when strictly
more than 2 seconds have passed since the state change; everything else is
invalid.  tsc is time_keeper.time_since_statechange(). -/
def engineAbortCan (tsc : Rat) (target : MState) : Bool × String :=
  if target = .fts then (true, "Valid transition")
  else if target = .idle then
    if tsc > 2 then (true, "Valid transition")
    else (false, "Cannot return to IDLE, only " ++ toString tsc ++ " seconds passed")
  else (false, "Invalid transition")

/-- HotfireState.can_transition_to: EngineAbort always; Idle only when the
hotfire is complete; everything else is invalid. -/
def hotfireCan (c : HotfireController) (tsc : Rat) (target : MState) : Bool × String :=
  if target = .engineAbort then (true, "Valid transition")
  else if target = .idle then
    if is_hotfire_complete c tsc then (true, "Valid transition")
    else (false, "Hotfire not complete")
  else (false, "Invalid transition")

/-- FTSState.can_transition_to: only Idle. -/
def ftsCan (target : MState) : Bool × String :=
  if target = .idle then (true, "Valid transition") else (false, "Invalid transition")

/-- Modelled from the spec: startup_state.py is imported by state_machine.py
but missing from the sources; the spec's transition matrix allows Idle,
EngineAbort and FTS from Startup. -/
def startupCan (target : MState) : Bool × String :=
  if target = .idle ∨ target = .engineAbort ∨ target = .fts then
    (true, "Valid transition")
  else (false, "Invalid transition")

/-- Modelled from the spec: launch_state.py is imported by state_machine.py
but missing from the sources; the spec's transition matrix allows Hover,
EngineAbort and FTS from Launch. -/
def launchCan (target : MState) : Bool × String :=
  if target = .hover ∨ target = .engineAbort ∨ target = .fts then
    (true, "Valid transition")
  else (false, "Invalid transition")

/-- Modelled from the spec: hover_state.py is imported by state_machine.py
but missing from the sources; the spec's transition matrix allows Idle,
EngineAbort and FTS from Hover. -/
def hoverCan (target : MState) : Bool × String :=
  if target = .idle ∨ target = .engineAbort ∨ target = .fts then
    (true, "Valid transition")
  else (false, "Invalid transition")

/-- Dispatch of can_transition_to on the current state.  The EngineAbort and
Hotfire checks read the machine TimeKeeper's time since the state change, and
the Hotfire check consults that state's HotfireController. -/
def can_transition_to (cur : MState) (c : HotfireController) (tsc : Rat)
    (target : MState) : Bool × String :=
  match cur with
  | .startup => startupCan target
  | .idle => idleCan target
  | .hotfire => hotfireCan c tsc target
  | .engineAbort => engineAbortCan tsc target
  | .fts => ftsCan target
  | .launch => launchCan target
  | .hover => hoverCan target

/-- Side effects of a transition, in order: outgoing teardown, incoming
setup, and the TimeKeeper statechange (epoch reset). -/
inductive TransEvent where
  | teardown : MState → TransEvent
  | setup : MState → TransEvent
  | epochReset : TransEvent
deriving DecidableEq, Repr

/-- The machine state consulted and mutated by StateMachine.transition_to:
the installed state, the TimeKeeper cycle counter and statechange epoch, and
the HotfireController held by the current state when it is Hotfire.
time_since_statechange() is now minus the epoch. -/
structure StateMachine where
  state : Option MState
  cycle : Nat
  statechange_time : Rat
  hfc : HotfireController
deriving DecidableEq, Repr

/-- StateMachine.transition_to at monotonic time now: when a current state is
installed and refuses the target, return the failure string and change
nothing; otherwise tear down the old state, install the target, run its
setup, and reset the TimeKeeper epoch (statechange sets cycle to 0 and the
epoch to now).  The returned list records the side effects in order. -/
def transition_to (sm : StateMachine) (now : Rat) (target : MState) :
    StateMachine × String × List TransEvent :=
  match sm.state with
  | some cur =>
    let r := can_transition_to cur sm.hfc (now - sm.statechange_time) target
    if r.1 then
      ({ sm with state := some target, cycle := 0, statechange_time := now },
       "Transitioned to " ++ stateName target,
       [.teardown cur, .setup target, .epochReset])
    else
      (sm,
       "Attempted transition from " ++ stateName cur ++ " to " ++ stateName target
         ++ " failed, Reason: " ++ r.2,
       [])
  | none =>
    ({ sm with state := some target, cycle := 0, statechange_time := now },
     "Transitioned to " ++ stateName target,
     [.setup target, .epochReset])

/-! ## Command routing (propbackend/commands/command_processor.py) -/

/-- HardwareHandler.get_board: first board with the given name, else None. -/
def get_board (boards : List (String × Board)) (name : String) : Option Board :=
  match boards with
  | [] => none
  | p :: t => if p.1 = name then some p.2 else get_board t name

/-- Replace the first board with the given name (Python mutates the board
object found by get_board in place). -/
def setBoard (boards : List (String × Board)) (name : String) (b : Board) :
    List (String × Board) :=
  match boards with
  | [] => []
  | p :: t => if p.1 = name then (p.1, b) :: t else p :: setBoard t name b

/-- Modelled from the spec: HardwareHandler.update_board_desired_state is
called by CommandProcessor.update_desired_state but is absent from
propbackend/hardware/hardware_handler.py (only earlier drafts of the
repository contain it); per the spec it looks up the named board and applies
Board.update_desired_state to it, and a missing board only produces a reply. -/
def update_board_desired_state (hwTypes : List String)
    (boards : List (String × Board)) (name : String) (new : HWMap) :
    Option (List (String × Board)) :=
  match get_board boards name with
  | none => some boards
  | some b =>
    match update_desired_state hwTypes b new with
    | none => none
    | some b2 => some (setBoard boards name b2)

/-- Effect of CommandProcessor.process_message on an operator message whose
command is "update desired state": the dispatch consults only the command
table, so the current machine state ms is not examined on this path and the
request reaches the board merge in every state, Hotfire included. -/
def processUpdateDesiredStateCommand (_ms : MState) (hwTypes : List String)
    (boards : List (String × Board)) (boardName : String) (msg : HWMap) :
    Option (List (String × Board)) :=
  update_board_desired_state hwTypes boards boardName msg

/-! ## Heap model for aliasing (C3)

To talk about the aliasing behaviour of get_hotfire_desiredstate and
get_abort_desiredstate, dictionaries are placed on an explicit heap: an
object is a list of fields whose values are scalars or references to other
objects, and a store is the list of allocated objects (the address is the
index).  copy.deepcopy allocates an isomorphic structure out of fresh
addresses, which the heap variant realises by allocating the value computed
by the pure model. -/

/-- A heap value: a scalar or a reference to a heap object. -/
inductive HVal where
  | prim : Val → HVal
  | ref : Nat → HVal
deriving DecidableEq, Repr

/-- A heap object: a Python dict whose values are heap values. -/
abbrev HObj := List (String × HVal)

/-- The store: object at address a is the list entry at index a. -/
abbrev Store := List HObj

/-- Read a path of keys starting from a heap value. -/
def readPath (st : Store) : HVal → List String → Option HVal
  | h, [] => some h
  | .prim _, _ :: _ => none
  | .ref a, k :: rest => do
    let o ← st.get? a
    let v ← alook k o
    readPath st v rest

/-- Mutate one field of the object at an address (a Python dict assignment
through a reference into the heap). -/
def heapSetField (st : Store) (a : Nat) (k : String) (v : HVal) : Store :=
  match st.get? a with
  | none => st
  | some o => st.set a (aset k v o)

/-- Allocate an object, returning its fresh address. -/
def allocObj (st : Store) (o : HObj) : Store × Nat :=
  (st ++ [o], st.length)

/-- Allocate a field dictionary of scalars. -/
def allocFieldsH (st : Store) (f : Fields) : Store × Nat :=
  allocObj st (f.map fun p => (p.1, HVal.prim p.2))

/-- Allocate an items dictionary, children first. -/
def allocItemsH (st : Store) (its : Items) : Store × Nat :=
  let r := its.foldl
    (fun (acc : Store × HObj) p =>
      let s2 := allocFieldsH acc.1 p.2
      (s2.1, acc.2 ++ [(p.1, HVal.ref s2.2)]))
    (st, [])
  allocObj r.1 r.2

/-- Allocate a board-level map, children first. -/
def allocHWMapH (st : Store) (m : HWMap) : Store × Nat :=
  let r := m.foldl
    (fun (acc : Store × HObj) p =>
      let s2 := allocItemsH acc.1 p.2
      (s2.1, acc.2 ++ [(p.1, HVal.ref s2.2)]))
    (st, [])
  allocObj r.1 r.2

/-- Allocate a multi-board snapshot, children first. -/
def allocDStateH (st : Store) (dst : DState) : Store × Nat :=
  let r := dst.foldl
    (fun (acc : Store × HObj) p =>
      let s2 := allocHWMapH acc.1 p.2
      (s2.1, acc.2 ++ [(p.1, HVal.ref s2.2)]))
    (st, [])
  allocObj r.1 r.2

/-- A controller together with the heap address of the dictionary object its
start_end_desiredstate attribute references. -/
structure HCtl where
  c : HotfireController
  seAddr : Nat
deriving Repr

/-- Heap-level HotfireController.get_abort_desiredstate: the method returns
self.start_end_desiredstate itself, that is, the stored reference. -/
def h_get_abort_desiredstate (hc : HCtl) : HVal :=
  HVal.ref hc.seAddr

/-- Heap-level HotfireController.get_hotfire_desiredstate.  Outside the
keyframe range the method returns the stored start_end_desiredstate
reference itself with no copy; inside the range it deep-copies the base
keyframe and mutates only that fresh copy, realised here by allocating the
value computed by the pure model at fresh addresses. -/
def h_get_hotfire_desiredstate (hc : HCtl) (st : Store) (t : Rat) :
    Option (Store × HVal) :=
  let T := get_T hc.c t
  match hc.c.sorted_times.head?, hc.c.sorted_times.getLast? with
  | some tFirst, some tLast =>
    if T < tFirst ∨ T > tLast then some (st, HVal.ref hc.seAddr)
    else
      match get_hotfire_desiredstate hc.c t with
      | none => none
      | some r => some ((allocDStateH st r.1).1, HVal.ref (allocDStateH st r.1).2)
  | _, _ => none

/-! ## Association-list lemmas -/

theorem alook_aset_self {α : Type} (k : String) (v : α) (l : List (String × α)) :
    alook k (aset k v l) = some v := by
  induction l with
  | nil => simp [alook, aset]
  | cons p t ih =>
    by_cases h : p.1 = k
    · simp [alook, aset, h]
    · simp [alook, aset, h, ih]

theorem alook_aset_ne {α : Type} {k k' : String} (h : k' ≠ k) (v : α)
    (l : List (String × α)) : alook k (aset k' v l) = alook k l := by
  induction l with
  | nil => simp [alook, aset, h]
  | cons p t ih =>
    by_cases hp : p.1 = k'
    · simp [alook, aset, hp, h]
    · simp only [aset, hp, if_false, alook]
      by_cases hk : p.1 = k
      · simp [hk]
      · simp [hk, ih]

theorem alook_adel_ne {α : Type} {k k' : String} (h : k' ≠ k)
    (l : List (String × α)) : alook k (adel k' l) = alook k l := by
  induction l with
  | nil => simp [alook, adel]
  | cons p t ih =>
    by_cases hp : p.1 = k'
    · simp [adel, alook, hp, h, Ne.symm h]
    · simp only [adel, hp, if_false, alook]
      by_cases hk : p.1 = k
      · simp [hk]
      · simp [hk, ih]

theorem alook_eq_none_of_not_memKeys {α : Type} {k : String}
    {l : List (String × α)} (h : k ∉ l.map Prod.fst) : alook k l = none := by
  induction l with
  | nil => simp [alook]
  | cons p t ih =>
    simp only [List.map_cons, List.mem_cons] at h
    push_neg at h
    simp [alook, Ne.symm h.1, ih h.2]

theorem alook_adel_self {α : Type} (k : String) {l : List (String × α)}
    (hnd : (l.map Prod.fst).Nodup) : alook k (adel k l) = none := by
  induction l with
  | nil => simp [alook, adel]
  | cons p t ih =>
    simp only [List.map_cons, List.nodup_cons] at hnd
    by_cases hp : p.1 = k
    · subst hp
      simp [adel, alook_eq_none_of_not_memKeys hnd.1]
    · simp [adel, hp, alook, ih hnd.2]

theorem aset_self_of_alook {α : Type} {k : String} {v : α}
    {l : List (String × α)} (h : alook k l = some v) : aset k v l = l := by
  induction l with
  | nil => simp [alook] at h
  | cons p t ih =>
    obtain ⟨p1, p2⟩ := p
    by_cases hp : p1 = k
    · simp only [alook, hp, if_true, Option.some.injEq] at h
      simp [aset, hp, h]
    · simp only [alook, hp, if_false] at h
      simp [aset, hp, ih h]

theorem keys_aset_of_hasKey {α : Type} {k : String} {l : List (String × α)}
    (h : hasKey k l = true) (v : α) : (aset k v l).map Prod.fst = l.map Prod.fst := by
  induction l with
  | nil => simp [hasKey, alook] at h
  | cons p t ih =>
    by_cases hp : p.1 = k
    · simp [aset, hp]
    · simp only [hasKey, alook, hp, if_false] at h
      simp [aset, hp, ih h]

theorem keys_aset_of_not_hasKey {α : Type} {k : String} {l : List (String × α)}
    (h : hasKey k l = false) (v : α) :
    (aset k v l).map Prod.fst = l.map Prod.fst ++ [k] := by
  induction l with
  | nil => simp [aset]
  | cons p t ih =>
    by_cases hp : p.1 = k
    · simp [hasKey, alook, hp] at h
    · simp only [hasKey, alook, hp, if_false] at h
      simp [aset, hp, ih h]

theorem isSome_alook_of_memKeys {α : Type} {k : String} {l : List (String × α)}
    (h : k ∈ l.map Prod.fst) : (alook k l).isSome = true := by
  induction l with
  | nil => simp at h
  | cons p t ih =>
    simp only [List.map_cons, List.mem_cons] at h
    by_cases hp : p.1 = k
    · simp [alook, hp]
    · simp only [alook, hp, if_false]
      exact ih (h.resolve_left fun he => hp he.symm)

theorem nodupKeys_aset {α : Type} {k : String} {l : List (String × α)}
    (hnd : (l.map Prod.fst).Nodup) (v : α) : ((aset k v l).map Prod.fst).Nodup := by
  by_cases h : hasKey k l
  · rw [keys_aset_of_hasKey h]; exact hnd
  · rw [keys_aset_of_not_hasKey (by simpa using h)]
    refine List.Nodup.append hnd (List.nodup_singleton k) ?_
    intro a ha hb
    simp only [List.mem_singleton] at hb
    subst hb
    exact h (isSome_alook_of_memKeys ha)

theorem hasKey_aset_self {α : Type} (k : String) (v : α) (l : List (String × α)) :
    hasKey k (aset k v l) = true := by
  simp [hasKey, alook_aset_self]

theorem hasKey_aset_ne {α : Type} {k k' : String} (h : k' ≠ k) (v : α)
    (l : List (String × α)) : hasKey k (aset k' v l) = hasKey k l := by
  simp [hasKey, alook_aset_ne h]

/-! ## Concrete fixtures -/

/-- A minimal loaded controller, used where a transition check does not
consult the timeline. -/
def cc0 : HotfireController :=
  { time_before_ignition := 0
    hotfire_safing_time := 0
    start_end_desiredstate := []
    sequence := []
    sorted_times := []
    sorted_timestr := []
    hotfire_end_time := 0 }

/-- A machine idling since epoch 5. -/
def sm0 : StateMachine :=
  { state := some MState.idle, cycle := 7, statechange_time := 5, hfc := cc0 }

/-! ## Claim C7: the EngineAbort cool-down -/

/-- Claim C7, counterexample: at exactly 2 seconds after entering
EngineAbort, at least 2 seconds have elapsed, yet the code denies the
transition to Idle (the source tests time_since_statechange strictly
greater than 2). -/
theorem C7_counterexample :
    (can_transition_to MState.engineAbort cc0 2 MState.idle).1 = false ∧ (2 : Rat) ≥ 2 := by
  constructor
  · decide
  · norm_num

/-- Claim C7, amended: from EngineAbort, a transition to Idle is allowed if
and only if strictly more than 2 seconds have elapsed since entering the
state (a request at 1.5 s is denied with a reason, one at 2.1 s is granted);
a transition to FTS is always allowed; all other targets are denied. -/
theorem C7_amended (c : HotfireController) (t : Rat) :
    ((can_transition_to MState.engineAbort c t MState.idle).1 = true ↔ t > 2)
    ∧ (can_transition_to MState.engineAbort c t MState.fts).1 = true
    ∧ (∀ target : MState, target ≠ MState.idle → target ≠ MState.fts →
        (can_transition_to MState.engineAbort c t target).1 = false)
    ∧ (¬ t > 2 → (can_transition_to MState.engineAbort c t MState.idle).2 ≠ "") := by
  refine ⟨?_, ?_, ?_, ?_⟩
  · by_cases h : t > 2 <;> simp [can_transition_to, engineAbortCan, h]
  · simp [can_transition_to, engineAbortCan]
  · intro target h1 h2
    cases target <;> simp_all [can_transition_to, engineAbortCan]
  · intro h
    have he : can_transition_to MState.engineAbort c t MState.idle
        = (false, "Cannot return to IDLE, only " ++ toString t ++ " seconds passed") := by
      simp [can_transition_to, engineAbortCan, h]
    rw [he]
    intro hc
    have hd := congrArg String.data hc
    simp only [String.data_append] at hd
    rcases List.append_eq_nil.mp hd with ⟨hd1, -⟩
    rcases List.append_eq_nil.mp hd1 with ⟨hd3, -⟩
    exact absurd hd3 (by decide)

/-- Claim C7, witness: a request at 1.5 s is denied and one at 2.1 s is
granted. -/
theorem C7_witness :
    (can_transition_to MState.engineAbort cc0 (3 / 2) MState.idle).1 = false
    ∧ (can_transition_to MState.engineAbort cc0 (21 / 10) MState.idle).1 = true := by
  constructor
  · refine Bool.eq_false_iff.mpr fun h => ?_
    have := (C7_amended cc0 (3 / 2)).1.mp h
    norm_num at this
  · exact (C7_amended cc0 (21 / 10)).1.mpr (by norm_num)

/-! ## Claim C9: denied transitions change nothing -/

/-- Claim C9: when the installed state's can_transition_to refuses the
target, transition_to returns the reason string and performs nothing: the
machine record (installed state, TimeKeeper cycle and statechange epoch) is
returned unchanged and no teardown, setup or epoch-reset event occurs. -/
theorem C9_denied_unchanged (sm : StateMachine) (now : Rat) (target cur : MState)
    (h1 : sm.state = some cur)
    (h2 : (can_transition_to cur sm.hfc (now - sm.statechange_time) target).1 = false) :
    transition_to sm now target =
      (sm,
       "Attempted transition from " ++ stateName cur ++ " to " ++ stateName target
         ++ " failed, Reason: "
         ++ (can_transition_to cur sm.hfc (now - sm.statechange_time) target).2,
       []) := by
  simp [transition_to, h1, h2]

/-- Claim C9, witness: an idle machine denies a transition to Hover and is
returned unchanged with no events. -/
theorem C9_witness :
    (transition_to sm0 9 MState.hover).1 = sm0
    ∧ (transition_to sm0 9 MState.hover).2.2 = ([] : List TransEvent) := by
  have h := C9_denied_unchanged sm0 9 MState.hover MState.idle rfl (by decide)
  rw [h]
  exact ⟨rfl, rfl⟩

/-! ## Claim C6: no HOTFIRE guard on the update-desired-state command -/

/-- Read one desired-state field of a board. -/
def fieldOf (b : Board) (h I k : String) : Option Val :=
  ((alook h b.desired).bind (alook I)).bind (alook k)

/-- The hardware types of the C6 fixture. -/
def hwT6 : List String := ["solenoids"]

/-- A board with one armed solenoid whose desired powered is off. -/
def b6 : Board :=
  { boardConfig := [("solenoids", [("v", [])])]
    isActuator := true
    state := [("solenoids", [("v", [("armed", Val.bool true), ("powered", Val.bool false)])])]
    desired := [("solenoids", [("v", [("armed", Val.bool true), ("powered", Val.bool false)])])] }

/-- The operator request carried by the update-desired-state command. -/
def msg6 : HWMap := [("solenoids", [("v", [("powered", Val.bool true)])])]

/-- The board after the merge: desired powered has been switched on. -/
def b6x : Board :=
  { b6 with
    desired := [("solenoids", [("v", [("armed", Val.bool true), ("powered", Val.bool true)])])] }

/-- Claim C6: processing an operator update-desired-state command while the
machine is in Hotfire is dispatched straight to the board merge (no
route-level guard exists in command_processor.py) and mutates the board's
desired state: the armed solenoid's desired powered flips from false to
true. -/
theorem C6_hotfire_not_guarded :
    processUpdateDesiredStateCommand MState.hotfire hwT6 [("B", b6)] "B" msg6
      = some [("B", b6x)]
    ∧ fieldOf b6 "solenoids" "v" "powered" = some (Val.bool false)
    ∧ fieldOf b6x "solenoids" "v" "powered" = some (Val.bool true) := by
  refine ⟨?_, rfl, rfl⟩
  rfl

/-! ## Claim C3: the safing snapshot is returned by reference -/

/-- The pure controller of the C3 fixture: one keyframe at time 0; any query
with T outside the singleton range takes the safing branch. -/
def c3p : HotfireController :=
  { time_before_ignition := 0
    hotfire_safing_time := 1
    start_end_desiredstate :=
      [("B", [("solenoids", [("v", [("powered", Val.bool false)])])])]
    sequence := [("0", [("B", [("solenoids", [("v", [("powered", Val.bool true)])])])])]
    sorted_times := [0]
    sorted_timestr := ["0"]
    hotfire_end_time := 1 }

/-- The heap holding the stored safing snapshot of the C3 fixture:
the object at address 3 is the start_end_desiredstate dictionary, whose
nested field dictionary lives at address 0. -/
def st3 : Store :=
  [[("powered", HVal.prim (Val.bool false))],
   [("v", HVal.ref 0)],
   [("solenoids", HVal.ref 1)],
   [("B", HVal.ref 2)]]

/-- The heap-level controller of the C3 fixture. -/
def hc3 : HCtl := { c := c3p, seAddr := 3 }

/-- Claim C3, failing input: with T outside the keyframe range,
get_hotfire_desiredstate returns the stored start_end_desiredstate object
itself (the same reference, address 3), as does get_abort_desiredstate;
writing through the returned structure (the nested field dictionary at
address 0 reached from it) changes the value that every subsequent call
returns, so the returned dictionary is not disjoint from the stored
timeline. -/
theorem C3_alias_bug :
    h_get_hotfire_desiredstate hc3 st3 5 = some (st3, HVal.ref 3)
    ∧ h_get_abort_desiredstate hc3 = HVal.ref 3
    ∧ readPath st3 (HVal.ref 3) ["B", "solenoids", "v"] = some (HVal.ref 0)
    ∧ readPath st3 (HVal.ref 3) ["B", "solenoids", "v", "powered"]
        = some (HVal.prim (Val.bool false))
    ∧ h_get_hotfire_desiredstate hc3
        (heapSetField st3 0 "powered" (HVal.prim (Val.bool true))) 5
        = some (heapSetField st3 0 "powered" (HVal.prim (Val.bool true)), HVal.ref 3)
    ∧ readPath (heapSetField st3 0 "powered" (HVal.prim (Val.bool true)))
        (HVal.ref 3) ["B", "solenoids", "v", "powered"]
        = some (HVal.prim (Val.bool true)) := by
  refine ⟨?_, rfl, rfl, rfl, ?_, rfl⟩ <;>
    norm_num [h_get_hotfire_desiredstate, hc3, c3p, get_T]

/-! ## Counterexample fixtures for the merge claims -/

/-- The hardware types of the servo fixtures. -/
def hwT1 : List String := ["servos"]

/-- A board whose servo S is disarmed in the actual state, with desired
angle 45 and a configured disarm_angle of 10. -/
def b1 : Board :=
  { boardConfig := [("servos", [("S", [("disarm_angle", Val.num 10)])])]
    isActuator := true
    state := [("servos", [("S", [("armed", Val.bool false)])])]
    desired := [("servos", [("S", [("armed", Val.bool false), ("angle", Val.num 45)])])] }

/-- An incoming request that only carries armed = false for servo S. -/
def new1 : HWMap := [("servos", [("S", [("armed", Val.bool false)])])]

/-- Claim C1, counterexample: servo S's actual state has armed == false and
its prior desired angle is 45, yet merging a request that carries only
armed = false rewrites the non-armed field angle to 0 (the disarm-angle
branch of board.py runs regardless of the arming firewall), so the call does
change a non-armed field of a disarmed item. -/
theorem C1_counterexample :
    ((alook "servos" b1.state).bind (alook "S")).bind (alook "armed")
      = some (Val.bool false)
    ∧ fieldOf b1 "servos" "S" "angle" = some (Val.num 45)
    ∧ (update_desired_state hwT1 b1 new1).map (fun b => fieldOf b "servos" "S" "angle")
        = some (some (Val.num 0)) := by
  refine ⟨rfl, rfl, ?_⟩
  decide

/-- A board whose servo S is armed, desired angle 45, and whose configured
disarm_angle is 30. -/
def b5 : Board :=
  { boardConfig := [("servos", [("S", [("disarm_angle", Val.num 30)])])]
    isActuator := true
    state := [("servos", [("S", [("armed", Val.bool true)])])]
    desired := [("servos", [("S", [("armed", Val.bool true), ("angle", Val.num 45)])])] }

/-- Claim C5, counterexample: servo S's configuration carries
disarm_angle = 30, the incoming request disarms it, and after the merge the
desired angle is the literal 0, not the configured value 30 (board.py writes
0 and ignores the disarm_angle value). -/
theorem C5_counterexample :
    ((alook "servos" b5.boardConfig).bind (alook "S")).bind (alook "disarm_angle")
      = some (Val.num 30)
    ∧ (update_desired_state hwT1 b5 new1).map (fun b => fieldOf b "servos" "S" "angle")
        = some (some (Val.num 0))
    ∧ (Val.num 0 : Val) ≠ Val.num 30 := by
  refine ⟨rfl, ?_, by decide⟩
  decide

/-- A board with one solenoid that is armed in the actual state. -/
def b8 : Board :=
  { boardConfig := [("solenoids", [("v", [])])]
    isActuator := true
    state := [("solenoids", [("v", [("armed", Val.bool true)])])]
    desired := [("solenoids", [("v", [("armed", Val.bool true), ("powered", Val.bool false)])])] }

/-- An incoming request powering solenoid v on. -/
def new8 : HWMap := [("solenoids", [("v", [("powered", Val.bool true)])])]

/-- Claim C8, counterexample: disarm_all sets the solenoid's desired armed
to false, but the powered lockout in update_desired_state keys on the actual
state, which still reports armed == true; a follow-up request with
powered = true therefore leaves desired powered true, not false. -/
theorem C8_counterexample :
    fieldOf (disarm_all b8) "solenoids" "v" "armed" = some (Val.bool false)
    ∧ (update_desired_state hwT6 (disarm_all b8) new8).map
        (fun b => fieldOf b "solenoids" "v" "powered")
      = some (some (Val.bool true)) := by
  refine ⟨rfl, ?_⟩
  decide

/-- A board whose servo S carries no armed field at all in the actual state,
with desired angle 45 and a configured disarm_angle. -/
def b10 : Board :=
  { boardConfig := [("servos", [("S", [("disarm_angle", Val.num 10)])])]
    isActuator := true
    state := [("servos", [("S", [("channel", Val.num 1)])])]
    desired := [("servos", [("S", [("angle", Val.num 45)])])] }

/-- Claim C10, counterexample: servo S's actual state has no armed field,
yet merging a request that carries armed = false writes the field angle
(setting it to 0 through the disarm-angle branch), so a field other than
armed is modified. -/
theorem C10_counterexample :
    ((alook "servos" b10.state).bind (alook "S")).bind (alook "armed") = none
    ∧ fieldOf b10 "servos" "S" "angle" = some (Val.num 45)
    ∧ (update_desired_state hwT1 b10 new1).map (fun b => fieldOf b "servos" "S" "angle")
        = some (some (Val.num 0)) := by
  refine ⟨rfl, rfl, ?_⟩
  decide

/-! ## Characterisation of the per-item merge -/

/-- The desired-state entry of one item. -/
def itemVal (h I : String) (d : HWMap) : Option Fields :=
  (alook h d).bind (alook I)

theorem udsArmedPhase_no_armed {stIt : Fields} {h I : String} {idata : Fields}
    {d : HWMap} (hav : alook "armed" stIt = none) :
    udsArmedPhase stIt h I idata d = some d := by
  unfold udsArmedPhase
  rw [hav]

theorem udsArmedPhase_armed_false {stIt : Fields} {h I : String} {idata : Fields}
    {d : HWMap} {av : Val} {dHw : Items} {dit : Fields}
    (hav : alook "armed" stIt = some av) (htr : truthy av = false)
    (hd : alook h d = some dHw) (hit : alook I dHw = some dit) :
    udsArmedPhase stIt h I idata d =
      some (if hasKey "powered" dit then
              aset h (aset I (aset "powered" (Val.bool false) dit) dHw) d
            else d) := by
  unfold udsArmedPhase
  rw [hav]
  simp only [htr, hd, hit, Bool.false_eq_true, if_false]
  split <;> rfl

theorem udsArmedPhase_armed_true {stIt : Fields} {h I : String} {idata : Fields}
    {d : HWMap} {av : Val} {dHw : Items} {dit : Fields}
    (hav : alook "armed" stIt = some av) (htr : truthy av = true)
    (hd : alook h d = some dHw) (hit : alook I dHw = some dit) :
    udsArmedPhase stIt h I idata d =
      some (aset h (aset I (udsCopy idata dit) dHw) d) := by
  unfold udsArmedPhase
  rw [hav]
  simp [htr, hd, hit]

theorem udsMirrorPhase_none {cfg : HWMap} {h I : String} {idata : Fields}
    {d : HWMap} (hin : alook "armed" idata = none) :
    udsMirrorPhase cfg h I idata d = some d := by
  unfold udsMirrorPhase
  rw [hin]

theorem udsMirrorPhase_other {cfg : HWMap} {h I : String} {idata : Fields}
    {d : HWMap} {nav : Val} {dHw : Items} {dit : Fields}
    (hin : alook "armed" idata = some nav) (hs : h ≠ "servos")
    (hd : alook h d = some dHw) (hit : alook I dHw = some dit) :
    udsMirrorPhase cfg h I idata d =
      some (aset h (aset I (aset "armed" nav dit) dHw) d) := by
  unfold udsMirrorPhase
  rw [hin]
  simp [hd, hit, hs]

theorem udsMirrorPhase_servo_notfalse {cfg : HWMap} {I : String} {idata : Fields}
    {d : HWMap} {nav : Val} {dHw : Items} {dit : Fields}
    (hin : alook "armed" idata = some nav) (hnf : eqFalseV nav = false)
    (hd : alook "servos" d = some dHw) (hit : alook I dHw = some dit) :
    udsMirrorPhase cfg "servos" I idata d =
      some (aset "servos" (aset I (aset "armed" nav dit) dHw) d) := by
  unfold udsMirrorPhase
  rw [hin]
  simp [hd, hit, hnf]

theorem udsMirrorPhase_servo_nodisarm {cfg : HWMap} {I : String} {idata : Fields}
    {d : HWMap} {nav : Val} {dHw : Items} {dit : Fields} {cfgS : Items} {cfgIt : Fields}
    (hin : alook "armed" idata = some nav) (hnf : eqFalseV nav = true)
    (hd : alook "servos" d = some dHw) (hit : alook I dHw = some dit)
    (hcs : alook "servos" cfg = some cfgS) (hci : alook I cfgS = some cfgIt)
    (hda : hasKey "disarm_angle" cfgIt = false) :
    udsMirrorPhase cfg "servos" I idata d =
      some (aset "servos" (aset I (aset "armed" nav dit) dHw) d) := by
  unfold udsMirrorPhase
  rw [hin]
  simp [hd, hit, hnf, hcs, hci, hda]

theorem udsMirrorPhase_servo_disarm {cfg : HWMap} {I : String} {idata : Fields}
    {d : HWMap} {nav : Val} {dHw : Items} {dit : Fields} {cfgS : Items} {cfgIt : Fields}
    (hin : alook "armed" idata = some nav) (hnf : eqFalseV nav = true)
    (hd : alook "servos" d = some dHw) (hit : alook I dHw = some dit)
    (hcs : alook "servos" cfg = some cfgS) (hci : alook I cfgS = some cfgIt)
    (hda : hasKey "disarm_angle" cfgIt = true) :
    udsMirrorPhase cfg "servos" I idata d =
      some (aset "servos"
        (aset I (aset "angle" (Val.num 0) (aset "armed" nav dit))
          (aset I (aset "armed" nav dit) dHw))
        (aset "servos" (aset I (aset "armed" nav dit) dHw) d)) := by
  unfold udsMirrorPhase
  rw [hin]
  simp [hd, hit, hnf, hcs, hci, hda, alook_aset_self]

/-! ## Frame lemmas: the per-item merge touches only its own section and item -/

theorem itemVal_write_ne {h J I : String} {X : Fields} {dHw : Items} {d : HWMap}
    (hd : alook h d = some dHw) (hne : I ≠ J) :
    itemVal h I (aset h (aset J X dHw) d) = itemVal h I d := by
  unfold itemVal
  rw [alook_aset_self, hd]
  show alook I (aset J X dHw) = alook I dHw
  exact alook_aset_ne hne.symm X dHw

theorem itemVal_write_self {h I : String} {X : Fields} {dHw : Items} {d : HWMap} :
    itemVal h I (aset h (aset I X dHw) d) = some X := by
  unfold itemVal
  rw [alook_aset_self]
  exact alook_aset_self I X dHw

theorem udsArmedPhase_alook_ne {stIt : Fields} {h J : String} {jdata : Fields}
    {d d' : HWMap} {k : String}
    (hres : udsArmedPhase stIt h J jdata d = some d') (hk : k ≠ h) :
    alook k d' = alook k d := by
  unfold udsArmedPhase at hres
  cases hav : alook "armed" stIt with
  | none =>
    simp only [hav, Option.some.injEq] at hres
    subst hres; rfl
  | some av =>
    simp only [hav] at hres
    cases htr : truthy av with
    | true =>
      rw [htr, if_pos rfl] at hres
      cases hd : alook h d with
      | none =>
        rw [hd] at hres
        exact Option.noConfusion hres
      | some dHw =>
        simp only [hd] at hres
        cases hit : alook J dHw with
        | none =>
          simp only [hit, Option.some.injEq] at hres
          subst hres; rfl
        | some dit =>
          simp only [hit, Option.some.injEq] at hres
          subst hres
          exact alook_aset_ne hk.symm _ d
    | false =>
      rw [htr, if_neg (by simp)] at hres
      cases hd : alook h d with
      | none =>
        rw [hd] at hres
        exact Option.noConfusion hres
      | some dHw =>
        simp only [hd] at hres
        cases hit : alook J dHw with
        | none =>
          rw [hit] at hres
          exact Option.noConfusion hres
        | some dit =>
          simp only [hit] at hres
          cases hpw : hasKey "powered" dit with
          | true =>
            rw [if_pos hpw] at hres
            cases hres
            exact alook_aset_ne hk.symm _ d
          | false =>
            rw [if_neg (by simp [hpw])] at hres
            cases hres; rfl

theorem udsArmedPhase_itemVal_ne {stIt : Fields} {h J : String} {jdata : Fields}
    {d d' : HWMap} {I : String}
    (hres : udsArmedPhase stIt h J jdata d = some d') (hne : I ≠ J) :
    itemVal h I d' = itemVal h I d := by
  unfold udsArmedPhase at hres
  cases hav : alook "armed" stIt with
  | none =>
    simp only [hav, Option.some.injEq] at hres
    subst hres; rfl
  | some av =>
    simp only [hav] at hres
    cases htr : truthy av with
    | true =>
      rw [htr, if_pos rfl] at hres
      cases hd : alook h d with
      | none =>
        rw [hd] at hres
        exact Option.noConfusion hres
      | some dHw =>
        simp only [hd] at hres
        cases hit : alook J dHw with
        | none =>
          simp only [hit, Option.some.injEq] at hres
          subst hres; rfl
        | some dit =>
          simp only [hit, Option.some.injEq] at hres
          subst hres
          exact itemVal_write_ne hd hne
    | false =>
      rw [htr, if_neg (by simp)] at hres
      cases hd : alook h d with
      | none =>
        rw [hd] at hres
        exact Option.noConfusion hres
      | some dHw =>
        simp only [hd] at hres
        cases hit : alook J dHw with
        | none =>
          rw [hit] at hres
          exact Option.noConfusion hres
        | some dit =>
          simp only [hit] at hres
          cases hpw : hasKey "powered" dit with
          | true =>
            rw [if_pos hpw] at hres
            cases hres
            exact itemVal_write_ne hd hne
          | false =>
            rw [if_neg (by simp [hpw])] at hres
            cases hres; rfl

theorem udsMirrorPhase_alook_ne {cfg : HWMap} {h J : String} {jdata : Fields}
    {d d' : HWMap} {k : String}
    (hres : udsMirrorPhase cfg h J jdata d = some d') (hk : k ≠ h) :
    alook k d' = alook k d := by
  unfold udsMirrorPhase at hres
  cases hin : alook "armed" jdata with
  | none =>
    simp only [hin, Option.some.injEq] at hres
    subst hres; rfl
  | some nav =>
    simp only [hin] at hres
    cases hd : alook h d with
    | none =>
      rw [hd] at hres
      exact Option.noConfusion hres
    | some dHw =>
      simp only [hd] at hres
      cases hit : alook J dHw with
      | none =>
        rw [hit] at hres
        exact Option.noConfusion hres
      | some dit =>
        simp only [hit] at hres
        by_cases hs : h = "servos"
        · subst hs
          rw [if_pos rfl] at hres
          cases hnf : eqFalseV nav with
          | false =>
            rw [hnf, if_neg (by simp)] at hres
            cases hres
            exact alook_aset_ne hk.symm _ d
          | true =>
            rw [hnf, if_pos rfl] at hres
            cases hcs : alook "servos" cfg with
            | none =>
              rw [hcs] at hres
              exact Option.noConfusion hres
            | some cfgS =>
              simp only [hcs] at hres
              cases hci : alook J cfgS with
              | none =>
                rw [hci] at hres
                exact Option.noConfusion hres
              | some cfgIt =>
                simp only [hci] at hres
                cases hda : hasKey "disarm_angle" cfgIt with
                | false =>
                  rw [if_neg (by simp [hda])] at hres
                  cases hres
                  exact alook_aset_ne hk.symm _ d
                | true =>
                  rw [if_pos hda] at hres
                  simp only [alook_aset_self, Option.some.injEq] at hres
                  subst hres
                  rw [alook_aset_ne hk.symm, alook_aset_ne hk.symm]
        · rw [if_neg hs] at hres
          cases hres
          exact alook_aset_ne hk.symm _ d

theorem udsMirrorPhase_itemVal_ne {cfg : HWMap} {h J : String} {jdata : Fields}
    {d d' : HWMap} {I : String}
    (hres : udsMirrorPhase cfg h J jdata d = some d') (hne : I ≠ J) :
    itemVal h I d' = itemVal h I d := by
  unfold udsMirrorPhase at hres
  cases hin : alook "armed" jdata with
  | none =>
    simp only [hin, Option.some.injEq] at hres
    subst hres; rfl
  | some nav =>
    simp only [hin] at hres
    cases hd : alook h d with
    | none =>
      rw [hd] at hres
      exact Option.noConfusion hres
    | some dHw =>
      simp only [hd] at hres
      cases hit : alook J dHw with
      | none =>
        rw [hit] at hres
        exact Option.noConfusion hres
      | some dit =>
        simp only [hit] at hres
        by_cases hs : h = "servos"
        · subst hs
          rw [if_pos rfl] at hres
          cases hnf : eqFalseV nav with
          | false =>
            rw [hnf, if_neg (by simp)] at hres
            cases hres
            exact itemVal_write_ne hd hne
          | true =>
            rw [hnf, if_pos rfl] at hres
            cases hcs : alook "servos" cfg with
            | none =>
              rw [hcs] at hres
              exact Option.noConfusion hres
            | some cfgS =>
              simp only [hcs] at hres
              cases hci : alook J cfgS with
              | none =>
                rw [hci] at hres
                exact Option.noConfusion hres
              | some cfgIt =>
                simp only [hci] at hres
                cases hda : hasKey "disarm_angle" cfgIt with
                | false =>
                  rw [if_neg (by simp [hda])] at hres
                  cases hres
                  exact itemVal_write_ne hd hne
                | true =>
                  rw [if_pos hda] at hres
                  simp only [alook_aset_self, Option.some.injEq] at hres
                  subst hres
                  rw [itemVal_write_ne (alook_aset_self _ _ _) hne,
                    itemVal_write_ne hd hne]
        · rw [if_neg hs] at hres
          cases hres
          exact itemVal_write_ne hd hne

theorem udsItem_alook_ne {cfg : HWMap} {stHw : Items} {h J : String}
    {jdata : Fields} {d d' : HWMap} {k : String}
    (hres : udsItem cfg stHw h J jdata d = some d') (hk : k ≠ h) :
    alook k d' = alook k d := by
  unfold udsItem at hres
  cases hst : alook J stHw with
  | none =>
    rw [hst] at hres
    exact Option.noConfusion hres
  | some stIt =>
    simp only [hst] at hres
    cases ha : udsArmedPhase stIt h J jdata d with
    | none =>
      rw [ha] at hres
      exact Option.noConfusion hres
    | some d1 =>
      simp only [ha] at hres
      rw [udsMirrorPhase_alook_ne hres hk, udsArmedPhase_alook_ne ha hk]

theorem udsItem_itemVal_ne {cfg : HWMap} {stHw : Items} {h J : String}
    {jdata : Fields} {d d' : HWMap} {I : String}
    (hres : udsItem cfg stHw h J jdata d = some d') (hne : I ≠ J) :
    itemVal h I d' = itemVal h I d := by
  unfold udsItem at hres
  cases hst : alook J stHw with
  | none =>
    rw [hst] at hres
    exact Option.noConfusion hres
  | some stIt =>
    simp only [hst] at hres
    cases ha : udsArmedPhase stIt h J jdata d with
    | none =>
      rw [ha] at hres
      exact Option.noConfusion hres
    | some d1 =>
      simp only [ha] at hres
      rw [udsMirrorPhase_itemVal_ne hres hne, udsArmedPhase_itemVal_ne ha hne]

/-! ## Fold lemmas for the two merge loops -/

theorem foldlM_option_cons {α β : Type} (f : β → α → Option β) (b : β) (a : α)
    (t : List α) :
    List.foldlM f b (a :: t) = (f b a).bind (fun x => List.foldlM f x t) := rfl

theorem foldlM_option_split {α β : Type} (f : β → α → Option β) {l1 l2 : List α}
    {b bf : β} (h : (l1 ++ l2).foldlM f b = some bf) :
    ∃ bm, l1.foldlM f b = some bm ∧ l2.foldlM f bm = some bf := by
  induction l1 generalizing b with
  | nil => exact ⟨b, rfl, h⟩
  | cons a t ih =>
    rw [List.cons_append, foldlM_option_cons] at h
    cases hfa : f b a with
    | none =>
      rw [hfa] at h
      exact Option.noConfusion h
    | some b1 =>
      rw [hfa] at h
      obtain ⟨bm, h1, h2⟩ := ih h
      refine ⟨bm, ?_, h2⟩
      rw [foldlM_option_cons, hfa]
      exact h1

theorem udsStep_itemVal_ne {cfg : HWMap} {stHw : Items} {h : String}
    {d dm : HWMap} {q : String × Fields} {I : String}
    (hq : q.1 ≠ I) (hres : udsStep cfg stHw h d q = some dm) :
    itemVal h I dm = itemVal h I d := by
  unfold udsStep at hres
  by_cases hkk : hasKey q.1 stHw = true
  · rw [if_pos hkk] at hres
    exact udsItem_itemVal_ne hres (fun he => hq he.symm)
  · rw [if_neg hkk] at hres
    cases hres; rfl

theorem udsStep_alook_ne {cfg : HWMap} {stHw : Items} {h : String}
    {d dm : HWMap} {q : String × Fields} {k : String}
    (hk : k ≠ h) (hres : udsStep cfg stHw h d q = some dm) :
    alook k dm = alook k d := by
  unfold udsStep at hres
  by_cases hkk : hasKey q.1 stHw = true
  · rw [if_pos hkk] at hres
    exact udsItem_alook_ne hres hk
  · rw [if_neg hkk] at hres
    cases hres; rfl

theorem foldlM_udsStep_itemVal {cfg : HWMap} {stHw : Items} {h I : String} :
    ∀ {L : List (String × Fields)} {d d' : HWMap},
    (∀ q ∈ L, q.1 ≠ I) → L.foldlM (udsStep cfg stHw h) d = some d' →
    itemVal h I d' = itemVal h I d := by
  intro L
  induction L with
  | nil =>
    intro d d' _ hres
    obtain rfl := Option.some.inj hres
    rfl
  | cons q t ih =>
    intro d d' hL hres
    rw [foldlM_option_cons] at hres
    cases hq : udsStep cfg stHw h d q with
    | none =>
      rw [hq] at hres
      exact Option.noConfusion hres
    | some dm =>
      rw [hq] at hres
      rw [ih (fun x hx => hL x (List.mem_cons_of_mem q hx)) hres,
        udsStep_itemVal_ne (hL q (List.mem_cons_self q t)) hq]

theorem foldlM_udsStep_alook {cfg : HWMap} {stHw : Items} {h k : String}
    (hk : k ≠ h) :
    ∀ {L : List (String × Fields)} {d d' : HWMap},
    L.foldlM (udsStep cfg stHw h) d = some d' →
    alook k d' = alook k d := by
  intro L
  induction L with
  | nil =>
    intro d d' hres
    obtain rfl := Option.some.inj hres
    rfl
  | cons q t ih =>
    intro d d' hres
    rw [foldlM_option_cons] at hres
    cases hq : udsStep cfg stHw h d q with
    | none =>
      rw [hq] at hres
      exact Option.noConfusion hres
    | some dm =>
      rw [hq] at hres
      rw [ih hres, udsStep_alook_ne hk hq]

theorem udsTop_alook_ne {cfg st new : HWMap} {acc acc' : HWMap} {h' k : String}
    (hres : udsTop cfg st new acc h' = some acc') (hk : k ≠ h') :
    alook k acc' = alook k acc := by
  unfold udsTop at hres
  cases hn : alook h' new with
  | none =>
    rw [hn] at hres
    obtain rfl := Option.some.inj hres
    rfl
  | some newHw =>
    simp only [hn] at hres
    by_cases hkk : hasKey h' acc = true
    · rw [if_pos hkk] at hres
      unfold udsHw at hres
      cases hs : alook h' st with
      | none =>
        rw [hs] at hres
        exact Option.noConfusion hres
      | some stHw =>
        simp only [hs] at hres
        exact foldlM_udsStep_alook hk hres
    · rw [if_neg hkk] at hres
      obtain rfl := Option.some.inj hres
      rfl

theorem foldlM_udsTop_alook {cfg st new : HWMap} {k : String} :
    ∀ {L : List String} {acc acc' : HWMap},
    (∀ x ∈ L, x ≠ k) → L.foldlM (udsTop cfg st new) acc = some acc' →
    alook k acc' = alook k acc := by
  intro L
  induction L with
  | nil =>
    intro acc acc' _ hres
    obtain rfl := Option.some.inj hres
    rfl
  | cons x t ih =>
    intro acc acc' hL hres
    rw [foldlM_option_cons] at hres
    cases hx : udsTop cfg st new acc x with
    | none =>
      rw [hx] at hres
      exact Option.noConfusion hres
    | some accm =>
      rw [hx] at hres
      rw [ih (fun y hy => hL y (List.mem_cons_of_mem x hy)) hres,
        udsTop_alook_ne hx (Ne.symm (hL x (List.mem_cons_self x t)))]

/-- Locate the single iteration of the merge that processes a designated
hardware type and item: the desired-state entry of that item seen by the
iteration is the entry before the whole call, and the entry after the whole
call is the one the iteration produced. -/
theorem uds_extract {hwTypes preH postH : List String} {b : Board} {new : HWMap}
    {b' : Board} {h I : String} {newHw preI postI : Items} {idata : Fields}
    {stHw : Items}
    (hsplitT : hwTypes = preH ++ h :: postH)
    (hpreH : ∀ x ∈ preH, x ≠ h) (hpostH : ∀ x ∈ postH, x ≠ h)
    (hnew : alook h new = some newHw)
    (hsplitI : newHw = preI ++ (I, idata) :: postI)
    (hpreI : ∀ q ∈ preI, q.1 ≠ I) (hpostI : ∀ q ∈ postI, q.1 ≠ I)
    (hst : alook h b.state = some stHw)
    (hki : hasKey I stHw = true)
    (hkd : hasKey h b.desired = true)
    (hsucc : update_desired_state hwTypes b new = some b') :
    ∃ dmid d', itemVal h I dmid = itemVal h I b.desired
      ∧ udsItem b.boardConfig stHw h I idata dmid = some d'
      ∧ itemVal h I b'.desired = itemVal h I d' := by
  unfold update_desired_state at hsucc
  cases hfold : hwTypes.foldlM (udsTop b.boardConfig b.state new) b.desired with
  | none =>
    rw [hfold] at hsucc
    exact Option.noConfusion hsucc
  | some dfin =>
    rw [hfold] at hsucc
    obtain rfl := Option.some.inj hsucc
    rw [hsplitT] at hfold
    obtain ⟨accA, hA, hRest⟩ := foldlM_option_split _ hfold
    rw [foldlM_option_cons] at hRest
    cases hTop : udsTop b.boardConfig b.state new accA h with
    | none =>
      rw [hTop] at hRest
      exact Option.noConfusion hRest
    | some accB =>
      rw [hTop] at hRest
      have hAfr : alook h accA = alook h b.desired := foldlM_udsTop_alook hpreH hA
      have hkdA : hasKey h accA = true := by
        unfold hasKey
        rw [hAfr]
        exact hkd
      unfold udsTop at hTop
      simp only [hnew] at hTop
      rw [if_pos hkdA] at hTop
      unfold udsHw at hTop
      rw [hst] at hTop
      rw [hsplitI] at hTop
      obtain ⟨accM, hM, hMRest⟩ := foldlM_option_split _ hTop
      rw [foldlM_option_cons] at hMRest
      cases hStep : udsStep b.boardConfig stHw h accM (I, idata) with
      | none =>
        rw [hStep] at hMRest
        exact Option.noConfusion hMRest
      | some accN =>
        rw [hStep] at hMRest
        unfold udsStep at hStep
        rw [if_pos hki] at hStep
        refine ⟨accM, accN, ?_, hStep, ?_⟩
        · rw [foldlM_udsStep_itemVal hpreI hM]
          unfold itemVal
          rw [hAfr]
        · have h1 : itemVal h I accB = itemVal h I accN :=
            foldlM_udsStep_itemVal hpostI hMRest
          have h2 : alook h dfin = alook h accB := foldlM_udsTop_alook hpostH hRest
          show itemVal h I dfin = itemVal h I accN
          unfold itemVal
          rw [h2]
          exact h1

/-! ## Value of the processed item itself -/

/-- The disarm-angle test of board.py:
`"disarm_angle" in self.board_config["servos"][item_name].keys()`,
false when either lookup has no entry (that lookup raising KeyError is
handled separately by the merge model). -/
def cfgHasDisarm (cfg : HWMap) (I : String) : Bool :=
  match alook "servos" cfg with
  | none => false
  | some cfgS =>
    match alook I cfgS with
    | none => false
    | some cfgIt => hasKey "disarm_angle" cfgIt

theorem itemVal_some_inv {h I : String} {d : HWMap} {dit : Fields}
    (hdit : itemVal h I d = some dit) :
    ∃ dHw, alook h d = some dHw ∧ alook I dHw = some dit := by
  unfold itemVal at hdit
  cases hx : alook h d with
  | none =>
    rw [hx] at hdit
    exact Option.noConfusion hdit
  | some dHw =>
    rw [hx] at hdit
    exact ⟨dHw, rfl, hdit⟩

/-- Value the armed-gated half of the merge leaves in the processed item:
copy when the actual state is armed (truthy), otherwise force a present
powered field off. -/
def armedStageVal (stIt idata dit : Fields) : Fields :=
  match alook "armed" stIt with
  | none => dit
  | some av =>
    if truthy av then udsCopy idata dit
    else if hasKey "powered" dit then aset "powered" (Val.bool false) dit
    else dit

/-- Value the armed-mirroring half of the merge leaves in the processed
item: mirror an explicitly supplied armed flag, and reset a servo angle to
the literal 0 on an incoming armed that compares equal to False when the
configuration carries a disarm_angle. -/
def mirrorStageVal (cfg : HWMap) (h I : String) (idata dit1 : Fields) : Fields :=
  match alook "armed" idata with
  | none => dit1
  | some nav =>
    if h = "servos" then
      if eqFalseV nav then
        if cfgHasDisarm cfg I then aset "angle" (Val.num 0) (aset "armed" nav dit1)
        else aset "armed" nav dit1
      else aset "armed" nav dit1
    else aset "armed" nav dit1

theorem udsArmedPhase_itemVal_self {stIt : Fields} {h I : String} {idata : Fields}
    {d d' : HWMap} {dit : Fields}
    (hdit : itemVal h I d = some dit)
    (hres : udsArmedPhase stIt h I idata d = some d') :
    itemVal h I d' = some (armedStageVal stIt idata dit) := by
  obtain ⟨dHw, hd, hit⟩ := itemVal_some_inv hdit
  unfold armedStageVal
  cases hav : alook "armed" stIt with
  | none =>
    rw [udsArmedPhase_no_armed hav] at hres
    obtain rfl := Option.some.inj hres
    exact hdit
  | some av =>
    dsimp only
    by_cases htr : truthy av = true
    · rw [udsArmedPhase_armed_true hav htr hd hit] at hres
      obtain rfl := Option.some.inj hres
      rw [if_pos htr]
      exact itemVal_write_self
    · rw [udsArmedPhase_armed_false hav (by simpa using htr) hd hit] at hres
      obtain rfl := Option.some.inj hres
      rw [if_neg htr]
      by_cases hpw : hasKey "powered" dit = true
      · rw [if_pos hpw, if_pos hpw]
        exact itemVal_write_self
      · rw [if_neg hpw, if_neg hpw]
        exact hdit

theorem udsMirrorPhase_itemVal_self {cfg : HWMap} {h I : String} {idata : Fields}
    {d d' : HWMap} {dit1 : Fields}
    (hdit : itemVal h I d = some dit1)
    (hres : udsMirrorPhase cfg h I idata d = some d') :
    itemVal h I d' = some (mirrorStageVal cfg h I idata dit1) := by
  obtain ⟨dHw, hd, hit⟩ := itemVal_some_inv hdit
  unfold mirrorStageVal
  cases hin : alook "armed" idata with
  | none =>
    rw [udsMirrorPhase_none hin] at hres
    obtain rfl := Option.some.inj hres
    exact hdit
  | some nav =>
    dsimp only
    by_cases hs : h = "servos"
    · subst hs
      rw [if_pos rfl]
      by_cases hnf : eqFalseV nav = true
      · rw [if_pos hnf]
        unfold udsMirrorPhase at hres
        simp only [hin, hd, hit, if_pos rfl, hnf, if_true] at hres
        cases hcs : alook "servos" cfg with
        | none =>
          rw [hcs] at hres
          exact Option.noConfusion hres
        | some cfgS =>
          simp only [hcs] at hres
          cases hci : alook I cfgS with
          | none =>
            rw [hci] at hres
            exact Option.noConfusion hres
          | some cfgIt =>
            simp only [hci] at hres
            have hcd : cfgHasDisarm cfg I = hasKey "disarm_angle" cfgIt := by
              simp only [cfgHasDisarm, hcs, hci]
            by_cases hda : hasKey "disarm_angle" cfgIt = true
            · rw [if_pos hda] at hres
              simp only [alook_aset_self, Option.some.injEq] at hres
              subst hres
              rw [if_pos (hcd.trans hda)]
              exact itemVal_write_self
            · rw [if_neg hda] at hres
              obtain rfl := Option.some.inj hres
              rw [if_neg (by simp [hcd]; simpa using hda)]
              exact itemVal_write_self
      · rw [if_neg hnf]
        rw [udsMirrorPhase_servo_notfalse hin (by simpa using hnf) hd hit] at hres
        obtain rfl := Option.some.inj hres
        exact itemVal_write_self
    · rw [if_neg hs]
      rw [udsMirrorPhase_other hin hs hd hit] at hres
      obtain rfl := Option.some.inj hres
      exact itemVal_write_self

theorem udsItem_itemVal_self {cfg : HWMap} {stHw : Items} {h I : String}
    {idata : Fields} {d d' : HWMap} {stIt dit : Fields}
    (hst : alook I stHw = some stIt)
    (hdit : itemVal h I d = some dit)
    (hres : udsItem cfg stHw h I idata d = some d') :
    itemVal h I d' = some (mirrorStageVal cfg h I idata (armedStageVal stIt idata dit)) := by
  unfold udsItem at hres
  simp only [hst] at hres
  cases ha : udsArmedPhase stIt h I idata d with
  | none =>
    rw [ha] at hres
    exact Option.noConfusion hres
  | some d1 =>
    simp only [ha] at hres
    exact udsMirrorPhase_itemVal_self (udsArmedPhase_itemVal_self hdit ha) hres

/-- End-to-end value of one designated item after Board.update_desired_state:
the armed-gated stage followed by the armed-mirroring stage. -/
theorem uds_itemVal_final {hwTypes preH postH : List String} {b : Board}
    {new : HWMap} {b' : Board} {h I : String} {newHw preI postI : Items}
    {idata : Fields} {stHw : Items} {stIt dit : Fields}
    (hsplitT : hwTypes = preH ++ h :: postH)
    (hpreH : ∀ x ∈ preH, x ≠ h) (hpostH : ∀ x ∈ postH, x ≠ h)
    (hnew : alook h new = some newHw)
    (hsplitI : newHw = preI ++ (I, idata) :: postI)
    (hpreI : ∀ q ∈ preI, q.1 ≠ I) (hpostI : ∀ q ∈ postI, q.1 ≠ I)
    (hst : alook h b.state = some stHw)
    (hstIt : alook I stHw = some stIt)
    (hdit : itemVal h I b.desired = some dit)
    (hsucc : update_desired_state hwTypes b new = some b') :
    itemVal h I b'.desired
      = some (mirrorStageVal b.boardConfig h I idata (armedStageVal stIt idata dit)) := by
  have hki : hasKey I stHw = true := by
    unfold hasKey
    rw [hstIt]
    rfl
  have hkd : hasKey h b.desired = true := by
    obtain ⟨dHw, hd, -⟩ := itemVal_some_inv hdit
    unfold hasKey
    rw [hd]
    rfl
  obtain ⟨dmid, d', hmid, hstep, hfin⟩ :=
    uds_extract hsplitT hpreH hpostH hnew hsplitI hpreI hpostI hst hki hkd hsucc
  rw [hfin, udsItem_itemVal_self hstIt (hmid.trans hdit) hstep]

/-- The armed-mirroring stage never touches a powered field. -/
theorem alook_powered_mirrorStage (cfg : HWMap) (h I : String)
    (idata s1 : Fields) :
    alook "powered" (mirrorStageVal cfg h I idata s1) = alook "powered" s1 := by
  unfold mirrorStageVal
  cases alook "armed" idata with
  | none => rfl
  | some nav =>
    dsimp only
    by_cases hs : h = "servos"
    · rw [if_pos hs]
      by_cases hnf : eqFalseV nav = true
      · rw [if_pos hnf]
        by_cases hcd : cfgHasDisarm cfg I = true
        · rw [if_pos hcd, alook_aset_ne (by decide) _ _, alook_aset_ne (by decide) _ _]
        · rw [if_neg hcd, alook_aset_ne (by decide) _ _]
      · rw [if_neg hnf, alook_aset_ne (by decide) _ _]
    · rw [if_neg hs, alook_aset_ne (by decide) _ _]

/-! ## Claim C1: the arming firewall, amended -/

/-- Claim C1, amended: for a configured item whose actual state has
armed == false, Board.update_desired_state copies no incoming field; the
item's desired entry changes only by (1) forcing a present powered field to
false, (2) mirroring an explicitly supplied incoming armed value, and
(3) for a servo whose incoming armed compares equal to False and whose
configuration carries a disarm_angle, resetting angle to the literal 0 —
in particular, if the desired entry has a powered field it is false after
the call. -/
theorem C1_amended {hwTypes preH postH : List String} {b : Board} {new : HWMap}
    {b' : Board} {h I : String} {newHw preI postI : Items} {idata : Fields}
    {stHw : Items} {stIt dit : Fields}
    (hsplitT : hwTypes = preH ++ h :: postH)
    (hpreH : ∀ x ∈ preH, x ≠ h) (hpostH : ∀ x ∈ postH, x ≠ h)
    (hnew : alook h new = some newHw)
    (hsplitI : newHw = preI ++ (I, idata) :: postI)
    (hpreI : ∀ q ∈ preI, q.1 ≠ I) (hpostI : ∀ q ∈ postI, q.1 ≠ I)
    (hst : alook h b.state = some stHw)
    (hstIt : alook I stHw = some stIt)
    (harm : alook "armed" stIt = some (Val.bool false))
    (hdit : itemVal h I b.desired = some dit)
    (hsucc : update_desired_state hwTypes b new = some b') :
    itemVal h I b'.desired
      = some (mirrorStageVal b.boardConfig h I idata
          (if hasKey "powered" dit then aset "powered" (Val.bool false) dit else dit))
    ∧ (hasKey "powered" dit = true →
        (itemVal h I b'.desired).bind (alook "powered") = some (Val.bool false)) := by
  have hmain := uds_itemVal_final hsplitT hpreH hpostH hnew hsplitI hpreI hpostI
    hst hstIt hdit hsucc
  have hstage : armedStageVal stIt idata dit
      = if hasKey "powered" dit then aset "powered" (Val.bool false) dit else dit := by
    unfold armedStageVal
    rw [harm]
    rfl
  rw [hstage] at hmain
  refine ⟨hmain, fun hpw => ?_⟩
  rw [hmain]
  show alook "powered" (mirrorStageVal _ _ _ _ _) = some (Val.bool false)
  rw [alook_powered_mirrorStage, if_pos hpw]
  exact alook_aset_self _ _ _

/-- A disarmed servo with powered still on in the desired state. -/
def b1w : Board :=
  { boardConfig := [("servos", [("S", [("disarm_angle", Val.num 10)])])]
    isActuator := true
    state := [("servos", [("S", [("armed", Val.bool false)])])]
    desired := [("servos",
      [("S", [("armed", Val.bool false), ("angle", Val.num 45),
              ("powered", Val.bool true)])])] }

/-- The board b1w after merging new1. -/
def b1wx : Board :=
  { b1w with
    desired := [("servos",
      [("S", [("armed", Val.bool false), ("angle", Val.num 0),
              ("powered", Val.bool false)])])] }

/-- Claim C1, witness: a concrete disarmed servo whose merge forces powered
off, mirrors the incoming armed flag and resets the angle to 0. -/
theorem C1_witness :
    (update_desired_state hwT1 b1w new1 = some b1wx)
    ∧ itemVal "servos" "S" b1wx.desired
        = some (mirrorStageVal b1w.boardConfig "servos" "S"
            [("armed", Val.bool false)]
            (aset "powered" (Val.bool false)
              [("armed", Val.bool false), ("angle", Val.num 45),
               ("powered", Val.bool true)]))
    ∧ (itemVal "servos" "S" b1wx.desired).bind (alook "powered")
        = some (Val.bool false) := by
  have h := @C1_amended hwT1 [] [] b1w new1 b1wx "servos" "S"
    [("S", [("armed", Val.bool false)])] [] [] [("armed", Val.bool false)]
    [("S", [("armed", Val.bool false)])] [("armed", Val.bool false)]
    [("armed", Val.bool false), ("angle", Val.num 45), ("powered", Val.bool true)]
    rfl (by simp) (by simp) rfl rfl (by simp) (by simp)
    rfl rfl rfl rfl (by decide)
  refine ⟨by decide, ?_, h.2 rfl⟩
  have h1 := h.1
  rw [if_pos (by decide)] at h1
  exact h1

/-! ## Claim C10: items with no armed field in the actual state, amended -/

/-- Claim C10, amended: for a configured item whose actual state carries no
armed field at all, the merge copies nothing and forces nothing; the item's
desired entry changes only by mirroring an explicitly supplied incoming
armed value and — the correction — by the servo disarm-angle branch, which
on an incoming armed comparing equal to False with a configured disarm_angle
also writes angle = 0; with no incoming armed the entry is untouched. -/
theorem C10_amended {hwTypes preH postH : List String} {b : Board} {new : HWMap}
    {b' : Board} {h I : String} {newHw preI postI : Items} {idata : Fields}
    {stHw : Items} {stIt dit : Fields}
    (hsplitT : hwTypes = preH ++ h :: postH)
    (hpreH : ∀ x ∈ preH, x ≠ h) (hpostH : ∀ x ∈ postH, x ≠ h)
    (hnew : alook h new = some newHw)
    (hsplitI : newHw = preI ++ (I, idata) :: postI)
    (hpreI : ∀ q ∈ preI, q.1 ≠ I) (hpostI : ∀ q ∈ postI, q.1 ≠ I)
    (hst : alook h b.state = some stHw)
    (hstIt : alook I stHw = some stIt)
    (harm : alook "armed" stIt = none)
    (hdit : itemVal h I b.desired = some dit)
    (hsucc : update_desired_state hwTypes b new = some b') :
    itemVal h I b'.desired = some (mirrorStageVal b.boardConfig h I idata dit)
    ∧ (alook "armed" idata = none → itemVal h I b'.desired = some dit) := by
  have hmain := uds_itemVal_final hsplitT hpreH hpostH hnew hsplitI hpreI hpostI
    hst hstIt hdit hsucc
  have hstage : armedStageVal stIt idata dit = dit := by
    simp only [armedStageVal, harm]
  rw [hstage] at hmain
  refine ⟨hmain, fun hin => ?_⟩
  rw [hmain]
  simp only [mirrorStageVal, hin]

/-- The board b10 after merging new1: the armed mirror created an armed
field and the disarm-angle branch rewrote the angle. -/
def b10x : Board :=
  { b10 with
    desired := [("servos", [("S", [("angle", Val.num 0), ("armed", Val.bool false)])])] }

/-- Claim C10, witness: the concrete armed-less servo of the counterexample,
with the amended description of its final desired entry. -/
theorem C10_witness :
    update_desired_state hwT1 b10 new1 = some b10x
    ∧ itemVal "servos" "S" b10x.desired
        = some (mirrorStageVal b10.boardConfig "servos" "S"
            [("armed", Val.bool false)] [("angle", Val.num 45)]) := by
  have h := @C10_amended hwT1 [] [] b10 new1 b10x "servos" "S"
    [("S", [("armed", Val.bool false)])] [] [] [("armed", Val.bool false)]
    [("S", [("channel", Val.num 1)])] [("channel", Val.num 1)]
    [("angle", Val.num 45)]
    rfl (by simp) (by simp) rfl rfl (by simp) (by simp)
    rfl rfl rfl rfl (by decide)
  exact ⟨by decide, h.1⟩

/-! ## Claim C5: the servo disarm angle, amended -/

/-- Claim C5, amended: for a configured servo whose incoming entry carries
an armed value comparing equal to False and whose board configuration has a
disarm_angle key for it, the desired angle after the merge is the literal 0
— not the configured disarm_angle value, which board.py never reads. -/
theorem C5_amended {hwTypes preH postH : List String} {b : Board} {new : HWMap}
    {b' : Board} {I : String} {newHw preI postI : Items} {idata : Fields}
    {stHw : Items} {stIt dit : Fields} {nav : Val}
    (hsplitT : hwTypes = preH ++ "servos" :: postH)
    (hpreH : ∀ x ∈ preH, x ≠ "servos") (hpostH : ∀ x ∈ postH, x ≠ "servos")
    (hnew : alook "servos" new = some newHw)
    (hsplitI : newHw = preI ++ (I, idata) :: postI)
    (hpreI : ∀ q ∈ preI, q.1 ≠ I) (hpostI : ∀ q ∈ postI, q.1 ≠ I)
    (hst : alook "servos" b.state = some stHw)
    (hstIt : alook I stHw = some stIt)
    (hin : alook "armed" idata = some nav)
    (hnf : eqFalseV nav = true)
    (hcd : cfgHasDisarm b.boardConfig I = true)
    (hdit : itemVal "servos" I b.desired = some dit)
    (hsucc : update_desired_state hwTypes b new = some b') :
    (itemVal "servos" I b'.desired).bind (alook "angle") = some (Val.num 0) := by
  have hmain := uds_itemVal_final hsplitT hpreH hpostH hnew hsplitI hpreI hpostI
    hst hstIt hdit hsucc
  rw [hmain]
  show alook "angle" (mirrorStageVal _ _ _ _ _) = some (Val.num 0)
  unfold mirrorStageVal
  rw [hin]
  dsimp only
  rw [if_pos rfl, if_pos hnf, if_pos hcd]
  exact alook_aset_self _ _ _

/-- The board b5 after merging new1: the copy and mirror disarm the servo
and the disarm-angle branch rewrites the angle to 0. -/
def b5x : Board :=
  { b5 with
    desired := [("servos", [("S", [("armed", Val.bool false), ("angle", Val.num 0)])])] }

/-- Claim C5, witness: the concrete servo of the counterexample; the final
desired angle is the literal 0. -/
theorem C5_witness :
    update_desired_state hwT1 b5 new1 = some b5x
    ∧ (itemVal "servos" "S" b5x.desired).bind (alook "angle") = some (Val.num 0) := by
  have h := @C5_amended hwT1 [] [] b5 new1 b5x "S"
    [("S", [("armed", Val.bool false)])] [] [] [("armed", Val.bool false)]
    [("S", [("armed", Val.bool true)])] [("armed", Val.bool true)]
    [("armed", Val.bool true), ("angle", Val.num 45)] (Val.bool false)
    rfl (by simp) (by simp) rfl rfl (by simp) (by simp)
    rfl rfl rfl rfl rfl rfl (by decide)
  exact ⟨by decide, h⟩

/-! ## Claim C8: disarm_all, amended -/

theorem aset_aset_same {α : Type} (k : String) (v v' : α) (l : List (String × α)) :
    aset k v (aset k v' l) = aset k v l := by
  induction l with
  | nil => simp [aset]
  | cons p t ih =>
    by_cases hp : p.1 = k
    · simp [aset, hp]
    · simp [aset, hp, ih]

theorem disarmItems_idem (its : Items) :
    disarmItems (disarmItems its) = disarmItems its := by
  unfold disarmItems
  rw [List.map_map]
  apply List.map_congr_left
  intro p _
  show (p.1, aset "armed" (Val.bool false) (aset "armed" (Val.bool false) p.2))
    = (p.1, aset "armed" (Val.bool false) p.2)
  rw [aset_aset_same]

theorem alook_disarmHw_ne {h' k : String} (hk : k ≠ h') (d : HWMap) :
    alook k (disarmHw h' d) = alook k d := by
  unfold disarmHw
  cases hx : alook h' d with
  | none => rfl
  | some its => exact alook_aset_ne (Ne.symm hk) _ d

theorem alook_disarmHw_self (h : String) (d : HWMap) :
    alook h (disarmHw h d) = (alook h d).map disarmItems := by
  unfold disarmHw
  cases hx : alook h d with
  | none => simp [hx]
  | some its => simp [hx, alook_aset_self]

theorem map_disarmItems_idem (o : Option Items) :
    Option.map disarmItems (Option.map disarmItems o) = Option.map disarmItems o := by
  cases o with
  | none => rfl
  | some its =>
    show some (disarmItems (disarmItems its)) = some (disarmItems its)
    rw [disarmItems_idem]

theorem disarmHw_stable {h : String} {d D : HWMap}
    (hD : alook h D = (alook h d).map disarmItems) : disarmHw h D = D := by
  cases hx : alook h d with
  | none =>
    rw [hx] at hD
    unfold disarmHw
    rw [hD]
    rfl
  | some its =>
    rw [hx] at hD
    unfold disarmHw
    rw [hD]
    show aset h (disarmItems (disarmItems its)) D = D
    rw [disarmItems_idem]
    exact aset_self_of_alook hD

theorem disarm_all_state (b : Board) : (disarm_all b).state = b.state := by
  unfold disarm_all
  by_cases hA : b.isActuator = true
  · rw [if_pos hA]
  · rw [if_neg hA]

theorem disarm_all_config (b : Board) : (disarm_all b).boardConfig = b.boardConfig := by
  unfold disarm_all
  by_cases hA : b.isActuator = true
  · rw [if_pos hA]
  · rw [if_neg hA]

theorem alook_disarmItems (I : String) (its : Items) :
    alook I (disarmItems its)
      = (alook I its).map (fun f => aset "armed" (Val.bool false) f) := by
  induction its with
  | nil => rfl
  | cons p t ih =>
    by_cases hp : p.1 = I
    · simp [disarmItems, alook, hp]
    · simp only [disarmItems, List.map_cons, alook, hp, if_false]
      exact ih

theorem disarm_all_desired_alook (b : Board) (h : String)
    (hA : b.isActuator = true)
    (hh : h = "servos" ∨ h = "solenoids" ∨ h = "pyros") :
    alook h (disarm_all b).desired = (alook h b.desired).map disarmItems := by
  unfold disarm_all
  rw [if_pos hA]
  show alook h (disarmHw "pyros" (disarmHw "solenoids" (disarmHw "servos" b.desired)))
    = (alook h b.desired).map disarmItems
  rcases hh with hh | hh | hh <;> subst hh
  · rw [alook_disarmHw_ne (by decide), alook_disarmHw_ne (by decide),
      alook_disarmHw_self]
  · rw [alook_disarmHw_ne (by decide), alook_disarmHw_self,
      alook_disarmHw_ne (by decide)]
  · rw [alook_disarmHw_self, alook_disarmHw_ne (by decide),
      alook_disarmHw_ne (by decide)]

/-- Claim C8, amended: Board.disarm_all is idempotent and sets armed = false
on every servo, solenoid and pyro of an actuator board's desired state, with
no transport I/O (it is a pure function of the board); but the powered
lockout of a follow-up update_desired_state is keyed to the item's actual
state, which disarm_all does not touch: after disarm_all, a request carrying
powered = true leaves desired powered false exactly for the items whose
actual state reports armed == false (the counterexample shows an item whose
actual state still reports armed == true accepting powered = true). -/
theorem C8_amended :
    (∀ b : Board, disarm_all (disarm_all b) = disarm_all b)
    ∧ (∀ (b : Board) (h I : String) (its : Items) (f : Fields),
        b.isActuator = true →
        (h = "servos" ∨ h = "solenoids" ∨ h = "pyros") →
        alook h b.desired = some its → alook I its = some f →
        itemVal h I (disarm_all b).desired = some (aset "armed" (Val.bool false) f))
    ∧ (∀ (hwTypes preH postH : List String) (b : Board) (new : HWMap) (b' : Board)
        (h I : String) (newHw preI postI : Items) (idata : Fields)
        (stHw : Items) (stIt dit : Fields),
        hwTypes = preH ++ h :: postH → (∀ x ∈ preH, x ≠ h) →
        (∀ x ∈ postH, x ≠ h) →
        alook h new = some newHw → newHw = preI ++ (I, idata) :: postI →
        (∀ q ∈ preI, q.1 ≠ I) → (∀ q ∈ postI, q.1 ≠ I) →
        alook h b.state = some stHw → alook I stHw = some stIt →
        alook "armed" stIt = some (Val.bool false) →
        itemVal h I (disarm_all b).desired = some dit →
        hasKey "powered" dit = true →
        update_desired_state hwTypes (disarm_all b) new = some b' →
        (itemVal h I b'.desired).bind (alook "powered") = some (Val.bool false)) := by
  refine ⟨?_, ?_, ?_⟩
  · intro b
    unfold disarm_all
    by_cases hA : b.isActuator = true
    · rw [if_pos hA]
      rw [if_pos (show ({ b with desired := disarmHw "pyros" (disarmHw "solenoids"
        (disarmHw "servos" b.desired)) } : Board).isActuator = true from hA)]
      have h1 : disarmHw "servos" (disarmHw "pyros" (disarmHw "solenoids"
          (disarmHw "servos" b.desired))) = disarmHw "pyros" (disarmHw "solenoids"
          (disarmHw "servos" b.desired)) := by
        apply disarmHw_stable
        rw [alook_disarmHw_ne (by decide), alook_disarmHw_ne (by decide),
          alook_disarmHw_self]
        exact (map_disarmItems_idem _).symm
      have h2 : disarmHw "solenoids" (disarmHw "pyros" (disarmHw "solenoids"
          (disarmHw "servos" b.desired))) = disarmHw "pyros" (disarmHw "solenoids"
          (disarmHw "servos" b.desired)) := by
        apply disarmHw_stable
        rw [alook_disarmHw_ne (by decide), alook_disarmHw_self,
          alook_disarmHw_ne (by decide)]
        exact (map_disarmItems_idem _).symm
      have h3 : disarmHw "pyros" (disarmHw "pyros" (disarmHw "solenoids"
          (disarmHw "servos" b.desired))) = disarmHw "pyros" (disarmHw "solenoids"
          (disarmHw "servos" b.desired)) := by
        apply disarmHw_stable
        rw [alook_disarmHw_self, alook_disarmHw_ne (by decide),
          alook_disarmHw_ne (by decide)]
        exact (map_disarmItems_idem _).symm
      show ({ b with desired := disarmHw "pyros" (disarmHw "solenoids" (disarmHw "servos"
        (disarmHw "pyros" (disarmHw "solenoids" (disarmHw "servos" b.desired))))) } : Board)
        = { b with desired := disarmHw "pyros" (disarmHw "solenoids"
            (disarmHw "servos" b.desired)) }
      rw [h1, h2, h3]
    · rw [if_neg hA, if_neg hA]
  · intro b h I its f hA hh hits hf
    unfold itemVal
    rw [disarm_all_desired_alook b h hA hh, hits]
    show alook I (disarmItems its) = _
    rw [alook_disarmItems, hf]
    rfl
  · intro hwTypes preH postH b new b' h I newHw preI postI idata stHw stIt dit
      hsplitT hpreH hpostH hnew hsplitI hpreI hpostI hst hstIt harm hdit hpw hsucc
    have hst' : alook h (disarm_all b).state = some stHw := by
      rw [disarm_all_state]
      exact hst
    have hmain := uds_itemVal_final hsplitT hpreH hpostH hnew hsplitI hpreI hpostI
      hst' hstIt hdit hsucc
    have hstage : armedStageVal stIt idata dit
        = if hasKey "powered" dit then aset "powered" (Val.bool false) dit else dit := by
      unfold armedStageVal
      rw [harm]
      rfl
    rw [hstage, if_pos hpw] at hmain
    rw [hmain]
    show alook "powered" (mirrorStageVal _ _ _ _ _) = some (Val.bool false)
    rw [alook_powered_mirrorStage]
    exact alook_aset_self _ _ _

/-- The disarmed-and-locked board of the C8 witness: solenoid v's actual
state reports armed == false. -/
def b8w : Board :=
  { boardConfig := [("solenoids", [("v", [])])]
    isActuator := true
    state := [("solenoids", [("v", [("armed", Val.bool false)])])]
    desired := [("solenoids", [("v", [("armed", Val.bool true), ("powered", Val.bool false)])])] }

/-- The board b8w after disarm_all and a powered-on request. -/
def b8wx : Board :=
  { b8w with
    desired := [("solenoids", [("v", [("armed", Val.bool false), ("powered", Val.bool false)])])] }

/-- Claim C8, witness: disarm_all is idempotent on a concrete board, sets
its solenoid's desired armed to false, and a follow-up powered-on request
against an actually-disarmed item leaves desired powered false. -/
theorem C8_witness :
    disarm_all (disarm_all b8w) = disarm_all b8w
    ∧ itemVal "solenoids" "v" (disarm_all b8w).desired
        = some (aset "armed" (Val.bool false)
            [("armed", Val.bool true), ("powered", Val.bool false)])
    ∧ (itemVal "solenoids" "v" b8wx.desired).bind (alook "powered")
        = some (Val.bool false) := by
  refine ⟨C8_amended.1 b8w, ?_, ?_⟩
  · exact C8_amended.2.1 b8w "solenoids" "v"
      [("v", [("armed", Val.bool true), ("powered", Val.bool false)])]
      [("armed", Val.bool true), ("powered", Val.bool false)]
      rfl (Or.inr (Or.inl rfl)) rfl rfl
  · exact C8_amended.2.2 hwT6 [] [] b8w new8 b8wx "solenoids" "v"
      [("v", [("powered", Val.bool true)])] [] [] [("powered", Val.bool true)]
      [("v", [("armed", Val.bool false)])] [("armed", Val.bool false)]
      [("armed", Val.bool false), ("powered", Val.bool false)]
      rfl (by simp) (by simp) rfl rfl (by simp) (by simp)
      rfl rfl rfl (by decide) rfl (by decide)

/-! ## Claim C2: the keyframe lookup index -/

theorem timeIndexAux_stop {ts : List Rat} {T t1 : Rat} {j : Nat}
    (h : ts.get? (j + 1) = some t1) (hle : ¬ T > t1) :
    timeIndexAux ts T j = some j := by
  rw [timeIndexAux]
  split
  · rename_i heq
    rw [heq] at h
    exact Option.noConfusion h
  · rename_i t1' heq
    rw [heq] at h
    obtain rfl := Option.some.inj h
    rw [if_neg hle]

theorem timeIndexAux_step {ts : List Rat} {T t1 : Rat} {j : Nat}
    (h : ts.get? (j + 1) = some t1) (hgt : T > t1) :
    timeIndexAux ts T j = timeIndexAux ts T (j + 1) := by
  rw [timeIndexAux]
  split
  · rename_i heq
    rw [heq] at h
    exact Option.noConfusion h
  · rename_i t1' heq
    rw [heq] at h
    obtain rfl := Option.some.inj h
    rw [if_pos hgt]

/-- The search loop lands on exactly the index whose predecessor times (from
position 1 on) lie strictly below T while the next time does not. -/
theorem timeIndexAux_char {ts : List Rat} {T : Rat} {i : Nat}
    (hlt : ∀ j, 1 ≤ j → j ≤ i → ∃ tj, ts.get? j = some tj ∧ tj < T)
    (hle : ∃ t1, ts.get? (i + 1) = some t1 ∧ ¬ T > t1) :
    timeIndexAux ts T 0 = some i := by
  suffices h : ∀ d j, j + d = i → timeIndexAux ts T j = some i by
    exact h i 0 (by omega)
  intro d
  induction d with
  | zero =>
    intro j hj
    obtain rfl : j = i := by omega
    obtain ⟨t1, h1, h2⟩ := hle
    exact timeIndexAux_stop h1 h2
  | succ d ih =>
    intro j hj
    obtain ⟨tj, hjj, hjlt⟩ := hlt (j + 1) (by omega) (by omega)
    rw [timeIndexAux_step hjj hjlt]
    exact ih (j + 1) (by omega)

/-- True when no servo entry of the snapshot carries a truthy ramp_to_next
flag, so the ramping loop leaves the snapshot untouched. -/
def noRampTriples (dst : DState) : Bool :=
  (servoTriples dst).all fun tr =>
    match alook "ramp_to_next" tr.2.2 with
    | none => true
    | some rv => !truthy rv

theorem rampStep_noflag {c : HotfireController} {ti : Nat} {T : Rat}
    {base : DState} {acc : DState × Bool} {tr : String × String × Fields}
    (hfl : (match alook "ramp_to_next" tr.2.2 with
            | none => true
            | some rv => !truthy rv) = true) :
    rampStep c ti T base acc tr = some acc := by
  unfold rampStep
  cases hx : alook "ramp_to_next" tr.2.2 with
  | none => rfl
  | some rv =>
    rw [hx] at hfl
    have hrv : truthy rv = false := by simpa using hfl
    dsimp only
    rw [if_neg (by simp [hrv])]

theorem foldlM_rampStep_noflag {c : HotfireController} {ti : Nat} {T : Rat}
    {base : DState} :
    ∀ {L : List (String × String × Fields)} {acc : DState × Bool},
    (∀ tr ∈ L, (match alook "ramp_to_next" tr.2.2 with
                | none => true
                | some rv => !truthy rv) = true) →
    L.foldlM (rampStep c ti T base) acc = some acc := by
  intro L
  induction L with
  | nil => intro acc _; rfl
  | cons tr t ih =>
    intro acc hL
    rw [foldlM_option_cons, rampStep_noflag (hL tr (List.mem_cons_self tr t))]
    exact ih fun x hx => hL x (List.mem_cons_of_mem tr hx)

/-- The base-keyframe characterisation of get_hotfire_desiredstate for an
in-range query on a ramp-free base keyframe. -/
theorem get_hotfire_base_char {c : HotfireController} {t T tF tL : Rat} {i : Nat}
    {ts : String} {base : DState}
    (hT : get_T c t = T)
    (hhead : c.sorted_times.head? = some tF)
    (hlast : c.sorted_times.getLast? = some tL)
    (hin : ¬(T < tF ∨ T > tL))
    (hlt : ∀ j, 1 ≤ j → j ≤ i → ∃ tj, c.sorted_times.get? j = some tj ∧ tj < T)
    (hle : ∃ t1, c.sorted_times.get? (i + 1) = some t1 ∧ ¬ T > t1)
    (hts : c.sorted_timestr.get? i = some ts)
    (hbase : alook ts c.sequence = some base)
    (hnr : noRampTriples base = true) :
    get_hotfire_desiredstate c t = some (base, false) := by
  unfold get_hotfire_desiredstate
  simp only [hhead, hlast, hT]
  rw [if_neg hin]
  rw [timeIndexAux_char hlt hle]
  simp only [hts, hbase]
  exact foldlM_rampStep_noflag (List.all_eq_true.mp hnr)

/-- Claim C2, amended: for every loaded timeline and every T in the keyframe
range, the base keyframe used by get_hotfire_desiredstate is the one at the
largest index i with sorted_times[i] strictly below T (index 0 when T equals
the first time); in particular, when T equals sorted_times[i] exactly for
i ≥ 1, the returned snapshot is keyframe i-1's, not keyframe i's. -/
theorem C2_amended {c : HotfireController} {t T tF tL : Rat} {i : Nat}
    {ts : String} {base : DState}
    (hT : get_T c t = T)
    (hhead : c.sorted_times.head? = some tF)
    (hlast : c.sorted_times.getLast? = some tL)
    (hin : ¬(T < tF ∨ T > tL))
    (hlt : ∀ j, 1 ≤ j → j ≤ i → ∃ tj, c.sorted_times.get? j = some tj ∧ tj < T)
    (hle : ∃ t1, c.sorted_times.get? (i + 1) = some t1 ∧ ¬ T > t1)
    (hts : c.sorted_timestr.get? i = some ts)
    (hbase : alook ts c.sequence = some base)
    (hnr : noRampTriples base = true) :
    get_hotfire_desiredstate c t = some (base, false) :=
  get_hotfire_base_char hT hhead hlast hin hlt hle hts hbase hnr

/-- Distinct snapshots for the three keyframes of the C2 fixture. -/
def snapA : DState := [("B", [("solenoids", [("v", [("powered", Val.bool false)])])])]

/-- Snapshot of the second keyframe of the C2 fixture. -/
def snapB : DState := [("B", [("solenoids", [("v", [("powered", Val.bool true)])])])]

/-- Snapshot of the third keyframe of the C2 fixture. -/
def snapC : DState := [("B", [("solenoids", [("v", [])])])]

/-- A three-keyframe timeline at times 0, 1 and 2. -/
def cc2 : HotfireController :=
  { time_before_ignition := 0
    hotfire_safing_time := 1
    start_end_desiredstate := []
    sequence := [("0", snapA), ("1", snapB), ("2", snapC)]
    sorted_times := [0, 1, 2]
    sorted_timestr := ["0", "1", "2"]
    hotfire_end_time := 3 }

/-- Claim C2, counterexample: at T = 1, exactly the time of keyframe 1, the
lookup returns keyframe 0's snapshot, not keyframe 1's, because the loop
condition compares T strictly against sorted_times[time_index + 1]. -/
theorem C2_counterexample :
    get_T cc2 1 = 1
    ∧ cc2.sorted_times.get? 1 = some 1
    ∧ cc2.sorted_timestr.get? 1 = some "1"
    ∧ alook "1" cc2.sequence = some snapB
    ∧ get_hotfire_desiredstate cc2 1 = some (snapA, false)
    ∧ snapA ≠ snapB := by
  refine ⟨by norm_num [get_T, cc2], rfl, rfl, rfl, ?_, by decide⟩
  exact @get_hotfire_base_char cc2 1 1 0 2 0 "0" snapA
    (by norm_num [get_T, cc2]) rfl rfl (by norm_num)
    (by intro j h1 h2; omega) ⟨1, rfl, by norm_num⟩ rfl rfl (by decide)

/-- Claim C2, witness: the amended tie-break at the concrete timeline; the
query landing exactly on keyframe 1's time returns keyframe 0's snapshot. -/
theorem C2_witness : get_hotfire_desiredstate cc2 1 = some (snapA, false) :=
  @C2_amended cc2 1 1 0 2 0 "0" snapA
    (by norm_num [get_T, cc2]) rfl rfl (by norm_num)
    (by intro j h1 h2; omega) ⟨1, rfl, by norm_num⟩ rfl rfl (by decide)

/-! ## Claim C4: ramp interpolation -/

/-- The servo-fields entry of one board's servo in a snapshot. -/
def pathServo (dst : DState) (bn sn : String) : Option Fields :=
  ((alook bn dst).bind (alook "servos")).bind (alook sn)

theorem pathAngle_eq (dst : DState) (bn sn : String) :
    pathAngle dst bn sn = (pathServo dst bn sn).bind (alook "angle") := rfl

theorem pathServo_some_inv {dst : DState} {bn sn : String} {f : Fields}
    (h : pathServo dst bn sn = some f) :
    ∃ bHw sIts, alook bn dst = some bHw ∧ alook "servos" bHw = some sIts
      ∧ alook sn sIts = some f := by
  unfold pathServo at h
  cases hb : alook bn dst with
  | none =>
    rw [hb] at h
    exact Option.noConfusion h
  | some bHw =>
    rw [hb, Option.some_bind'] at h
    cases hs : alook "servos" bHw with
    | none =>
      rw [hs] at h
      exact Option.noConfusion h
    | some sIts =>
      rw [hs, Option.some_bind'] at h
      exact ⟨bHw, sIts, rfl, hs, h⟩

theorem rampWrite_pathServo_ne {acc : DState} {bn sn B S : String} {w : Rat}
    {d : DState} (hres : rampWrite acc bn sn w = some d)
    (hne : ¬(bn = B ∧ sn = S)) :
    pathServo d B S = pathServo acc B S := by
  unfold rampWrite at hres
  cases hb : alook bn acc with
  | none =>
    rw [hb] at hres
    exact Option.noConfusion hres
  | some bHw =>
    simp only [hb] at hres
    cases hs : alook "servos" bHw with
    | none =>
      rw [hs] at hres
      exact Option.noConfusion hres
    | some sIts =>
      simp only [hs] at hres
      cases hf : alook sn sIts with
      | none =>
        rw [hf] at hres
        exact Option.noConfusion hres
      | some sFlds =>
        simp only [hf] at hres
        by_cases hkk : hasKey "ramp_to_next" (aset "angle" (Val.num w) sFlds) = true
        · rw [if_pos hkk] at hres
          obtain rfl := Option.some.inj hres
          by_cases hbB : bn = B
          · subst hbB
            have hsS : sn ≠ S := fun he => hne ⟨rfl, he⟩
            unfold pathServo
            rw [alook_aset_self, Option.some_bind', alook_aset_self,
              Option.some_bind', alook_aset_ne hsS, hb, Option.some_bind', hs,
              Option.some_bind']
          · unfold pathServo
            rw [alook_aset_ne hbB]
        · rw [if_neg hkk] at hres
          exact Option.noConfusion hres

theorem rampStep_pathServo_ne {c : HotfireController} {ti : Nat} {T : Rat}
    {base : DState} {acc acc' : DState × Bool} {tr : String × String × Fields}
    {B S : String}
    (hres : rampStep c ti T base acc tr = some acc')
    (hne : ¬(tr.1 = B ∧ tr.2.1 = S)) :
    pathServo acc'.1 B S = pathServo acc.1 B S := by
  unfold rampStep at hres
  cases hfl : alook "ramp_to_next" tr.2.2 with
  | none =>
    rw [hfl] at hres
    obtain rfl := Option.some.inj hres
    rfl
  | some rv =>
    simp only [hfl] at hres
    by_cases htr : truthy rv = true
    · rw [if_pos htr] at hres
      cases ha : pathAngle base tr.1 tr.2.1 with
      | none =>
        rw [ha] at hres
        exact Option.noConfusion hres
      | some av =>
        simp only [ha] at hres
        cases hts2 : c.sorted_timestr.get? (ti + 1) with
        | none =>
          simp only [hts2, Option.some.injEq] at hres
          subst hres
          rfl
        | some ts2 =>
          simp only [hts2] at hres
          cases hnxt : alook ts2 c.sequence with
          | none =>
            rw [hnxt] at hres
            exact Option.noConfusion hres
          | some nxt =>
            simp only [hnxt] at hres
            cases hbv : pathAngle nxt tr.1 tr.2.1 with
            | none =>
              rw [hbv] at hres
              exact Option.noConfusion hres
            | some bv =>
              simp only [hbv] at hres
              cases ht0 : c.sorted_times.get? ti with
              | none =>
                simp only [ht0, Option.some.injEq] at hres
                subst hres
                rfl
              | some t0 =>
                simp only [ht0] at hres
                cases ht1 : c.sorted_times.get? (ti + 1) with
                | none =>
                  simp only [ht1, Option.some.injEq] at hres
                  subst hres
                  rfl
                | some t1 =>
                  simp only [ht1] at hres
                  cases hca : asNum av with
                  | none =>
                    rw [hca] at hres
                    exact Option.noConfusion hres
                  | some a =>
                    simp only [hca] at hres
                    cases hcb : asNum bv with
                    | none =>
                      rw [hcb] at hres
                      exact Option.noConfusion hres
                    | some bAng =>
                      simp only [hcb] at hres
                      by_cases hz : t1 - t0 = 0
                      · rw [if_pos hz] at hres
                        exact Option.noConfusion hres
                      · rw [if_neg hz] at hres
                        cases hw : rampWrite acc.1 tr.1 tr.2.1
                            ((a * (t1 - T) + bAng * (T - t0)) / (t1 - t0)) with
                        | none =>
                          rw [hw] at hres
                          exact Option.noConfusion hres
                        | some dw =>
                          rw [hw] at hres
                          obtain rfl := Option.some.inj hres
                          exact rampWrite_pathServo_ne hw hne
    · rw [if_neg htr] at hres
      obtain rfl := Option.some.inj hres
      rfl

theorem foldlM_rampStep_pathServo {c : HotfireController} {ti : Nat} {T : Rat}
    {base : DState} {B S : String} :
    ∀ {L : List (String × String × Fields)} {acc acc' : DState × Bool},
    (∀ tr ∈ L, ¬(tr.1 = B ∧ tr.2.1 = S)) →
    L.foldlM (rampStep c ti T base) acc = some acc' →
    pathServo acc'.1 B S = pathServo acc.1 B S := by
  intro L
  induction L with
  | nil =>
    intro acc acc' _ hres
    obtain rfl := Option.some.inj hres
    rfl
  | cons tr t ih =>
    intro acc acc' hL hres
    rw [foldlM_option_cons] at hres
    cases hq : rampStep c ti T base acc tr with
    | none =>
      rw [hq] at hres
      exact Option.noConfusion hres
    | some accm =>
      rw [hq] at hres
      rw [ih (fun x hx => hL x (List.mem_cons_of_mem tr hx)) hres,
        rampStep_pathServo_ne hq (hL tr (List.mem_cons_self tr t))]

/-- Effect of one ramping iteration on the servo entry it processes: the
interpolated angle is written and the ramp flag popped, with the critical
flag untouched. -/
theorem rampStep_char {c : HotfireController} {ti : Nat} {T : Rat}
    {base : DState} {acc : DState × Bool} {acc2 : DState × Bool} {B S : String}
    {fBS : Fields} {rv av bv : Val} {a bAng t0 t1 : Rat} {ts2 : String}
    {nxt : DState}
    (hfl : alook "ramp_to_next" fBS = some rv) (htr : truthy rv = true)
    (hpa : pathAngle base B S = some av) (ha : asNum av = some a)
    (hts2 : c.sorted_timestr.get? (ti + 1) = some ts2)
    (hnxt : alook ts2 c.sequence = some nxt)
    (hbv : pathAngle nxt B S = some bv) (hb : asNum bv = some bAng)
    (ht0 : c.sorted_times.get? ti = some t0)
    (ht1 : c.sorted_times.get? (ti + 1) = some t1)
    (hz : ¬(t1 - t0 = 0))
    (hacc : pathServo acc.1 B S = some fBS)
    (hres : rampStep c ti T base acc (B, S, fBS) = some acc2) :
    pathServo acc2.1 B S
      = some (adel "ramp_to_next"
          (aset "angle" (Val.num ((a * (t1 - T) + bAng * (T - t0)) / (t1 - t0))) fBS))
    ∧ acc2.2 = acc.2 := by
  unfold rampStep at hres
  dsimp only at hres
  rw [hfl] at hres
  dsimp only at hres
  rw [if_pos htr] at hres
  simp only [hpa, hts2, hnxt, hbv, ht0, ht1, ha, hb] at hres
  rw [if_neg hz] at hres
  obtain ⟨bHw, sIts, hB, hS, hF⟩ := pathServo_some_inv hacc
  unfold rampWrite at hres
  simp only [hB, hS, hF] at hres
  have hkk : hasKey "ramp_to_next"
      (aset "angle" (Val.num ((a * (t1 - T) + bAng * (T - t0)) / (t1 - t0))) fBS)
      = true := by
    rw [hasKey_aset_ne (by decide)]
    unfold hasKey
    rw [hfl]
    rfl
  rw [if_pos hkk] at hres
  simp only [Option.map_some'] at hres
  obtain rfl := Option.some.inj hres
  constructor
  · unfold pathServo
    rw [alook_aset_self, Option.some_bind', alook_aset_self, Option.some_bind',
      alook_aset_self]
  · rfl

/-- Claim C4: ramp interpolation.  First conjunct: for an in-range T whose
base keyframe carries a servo with a truthy ramp_to_next whose counterpart
exists in the next keyframe, the returned snapshot carries
angle = (a*(t1 - T) + b*(T - t0)) / (t1 - t0) for that servo and its
ramp_to_next key is absent.  Second conjunct: when no next keyframe exists,
the ramping iteration reports the critical error and leaves the snapshot —
in particular the base angle — unchanged. -/
theorem C4_ramp_interpolation :
    (∀ (c : HotfireController) (t T tF tL : Rat) (ti : Nat) (ts ts2 : String)
       (base nxt : DState) (B S : String)
       (L1 L2 : List (String × String × Fields)) (fBS : Fields)
       (rv av bv : Val) (a bAng t0 t1 : Rat) (res : DState) (crit : Bool),
       get_T c t = T →
       c.sorted_times.head? = some tF → c.sorted_times.getLast? = some tL →
       ¬(T < tF ∨ T > tL) →
       timeIndexAux c.sorted_times T 0 = some ti →
       c.sorted_timestr.get? ti = some ts →
       alook ts c.sequence = some base →
       servoTriples base = L1 ++ (B, S, fBS) :: L2 →
       (∀ tr ∈ L1, ¬(tr.1 = B ∧ tr.2.1 = S)) →
       (∀ tr ∈ L2, ¬(tr.1 = B ∧ tr.2.1 = S)) →
       pathServo base B S = some fBS →
       alook "ramp_to_next" fBS = some rv → truthy rv = true →
       alook "angle" fBS = some av → asNum av = some a →
       c.sorted_timestr.get? (ti + 1) = some ts2 →
       alook ts2 c.sequence = some nxt →
       pathAngle nxt B S = some bv → asNum bv = some bAng →
       c.sorted_times.get? ti = some t0 →
       c.sorted_times.get? (ti + 1) = some t1 →
       ¬(t1 - t0 = 0) →
       (fBS.map Prod.fst).Nodup →
       get_hotfire_desiredstate c t = some (res, crit) →
       (pathServo res B S).bind (alook "angle")
           = some (Val.num ((a * (t1 - T) + bAng * (T - t0)) / (t1 - t0)))
         ∧ (pathServo res B S).map (hasKey "ramp_to_next") = some false)
    ∧ (∀ (c : HotfireController) (ti : Nat) (T : Rat) (base : DState)
         (acc : DState × Bool) (tr : String × String × Fields) (rv av : Val),
       c.sorted_timestr.get? (ti + 1) = none →
       alook "ramp_to_next" tr.2.2 = some rv → truthy rv = true →
       pathAngle base tr.1 tr.2.1 = some av →
       rampStep c ti T base acc tr = some (acc.1, true)) := by
  constructor
  · intro c t T tF tL ti ts ts2 base nxt B S L1 L2 fBS rv av bv a bAng t0 t1 res crit
      hT hhead hlast hin hidx hts hbase hsplit hL1 hL2 hpb hfl htr hav ha
      hts2 hnxt hbv hb ht0 ht1 hz hnd hsucc
    unfold get_hotfire_desiredstate at hsucc
    simp only [hhead, hlast, hT] at hsucc
    rw [if_neg hin] at hsucc
    simp only [hidx, hts, hbase] at hsucc
    rw [hsplit] at hsucc
    obtain ⟨acc1, hfold1, hrest⟩ := foldlM_option_split _ hsucc
    rw [foldlM_option_cons] at hrest
    cases hstep : rampStep c ti T base acc1 (B, S, fBS) with
    | none =>
      rw [hstep] at hrest
      exact Option.noConfusion hrest
    | some acc2 =>
      rw [hstep] at hrest
      have hacc1 : pathServo acc1.1 B S = some fBS := by
        rw [foldlM_rampStep_pathServo hL1 hfold1]
        exact hpb
      have hpa : pathAngle base B S = some av := by
        rw [pathAngle_eq, hpb, Option.some_bind', hav]
      obtain ⟨hval, -⟩ := rampStep_char hfl htr hpa ha hts2 hnxt hbv hb ht0 ht1
        hz hacc1 hstep
      have hfinal : pathServo res B S = pathServo acc2.1 B S :=
        foldlM_rampStep_pathServo hL2 hrest
      rw [hfinal, hval]
      constructor
      · rw [Option.some_bind', alook_adel_ne (by decide), alook_aset_self]
      · rw [Option.map_some']
        show some (hasKey "ramp_to_next" _) = some false
        unfold hasKey
        rw [alook_adel_self "ramp_to_next" (nodupKeys_aset hnd _)]
        rfl
  · intro c ti T base acc tr rv av hts2 hfl htr hpa
    unfold rampStep
    rw [hfl]
    dsimp only
    rw [if_pos htr]
    simp only [hpa, hts2]

/-- The ramped servo entry of the C4 fixture. -/
def rampF : Fields := [("angle", Val.num 0), ("ramp_to_next", Val.bool true)]

/-- First keyframe of the C4 fixture: angle 0, ramping to the next. -/
def kf0 : DState := [("B", [("servos", [("s", rampF)])])]

/-- Second keyframe of the C4 fixture: angle 90. -/
def kf1 : DState := [("B", [("servos", [("s", [("angle", Val.num 90)])])])]

/-- The two-keyframe ramp timeline of the spec's ramp-midpoint scenario:
ignition delay 2 s, keyframes at T = 0 and T = 2. -/
def cc4 : HotfireController :=
  { time_before_ignition := 2
    hotfire_safing_time := 1
    start_end_desiredstate := []
    sequence := [("0.0", kf0), ("2.0", kf1)]
    sorted_times := [0, 2]
    sorted_timestr := ["0.0", "2.0"]
    hotfire_end_time := 3 }

/-- The snapshot cc4 returns at T = 1: the midpoint angle with the ramp flag
stripped. -/
def res4 : DState := [("B", [("servos", [("s", [("angle", Val.num 45)])])])]

theorem cc4_eval : get_hotfire_desiredstate cc4 3 = some (res4, false) := by
  have hT : get_T cc4 3 = 1 := by norm_num [get_T, cc4]
  have hidx : timeIndexAux cc4.sorted_times 1 0 = some 0 :=
    timeIndexAux_stop rfl (by norm_num)
  unfold get_hotfire_desiredstate
  simp only [hT, hidx]
  norm_num +decide [cc4, kf0, kf1, rampF, res4, servoTriples, rampStep, rampWrite,
    pathAngle, alook, aset, adel, hasKey, asNum, truthy, foldlM_option_cons]

/-- Claim C4, witness: the spec's ramp-midpoint scenario (query at
t = 3 on a countdown of 2 gives T = 1, halfway between angles 0 and 90)
yields angle 45 with the ramp flag stripped, and a ramp request with no next
keyframe reports the critical error and leaves the snapshot unchanged. -/
theorem C4_witness :
    (pathServo res4 "B" "s").bind (alook "angle") = some (Val.num 45)
    ∧ (pathServo res4 "B" "s").map (hasKey "ramp_to_next") = some false
    ∧ rampStep cc4 1 1 kf0 (kf0, false) ("B", "s", rampF) = some (kf0, true) := by
  have h1 := C4_ramp_interpolation.1 cc4 3 1 0 2 0 "0.0" "2.0" kf0 kf1 "B" "s"
    [] [] rampF (Val.bool true) (Val.num 0) (Val.num 90) 0 90 0 2 res4 false
    (by norm_num [get_T, cc4]) rfl rfl (by norm_num)
    (timeIndexAux_stop rfl (by norm_num)) rfl rfl rfl (by simp) (by simp)
    rfl rfl rfl rfl rfl rfl rfl rfl rfl rfl rfl (by norm_num) (by decide) cc4_eval
  refine ⟨?_, h1.2, ?_⟩
  · rw [h1.1]
    norm_num
  · exact C4_ramp_interpolation.2 cc4 1 1 kf0 (kf0, false) ("B", "s", rampF)
      (Val.bool true) (Val.num 0) rfl rfl rfl rfl

end PropBackend
